import Mathlib

/-!
Verification of the DTW distance engine of `dtw.js` (Google Earth Engine
time-weighted / time-constrained dynamic time warping).

The definitions below are a shallow embedding of `exports.DTWDist` and its
helper `_distCalc`.  Numbers are modelled as real numbers; the Earth Engine
cast `toInt16` is modelled as truncation toward zero clamped to the signed
16-bit range, and `toUint16` as truncation clamped to the unsigned 16-bit
range.  Earth Engine's `divide` returns 0 on a zero denominator, which
coincides with Lean's convention `x / 0 = 0`, so ordinary division is used.
`ee.List.sequence(a, b)` is modelled as the list `[a, ..., b]`, empty when
`b < a`; `ee.List`/`ee.Array` `get` with a negative index wraps from the end,
modelled by `wrapIdx`.  Out-of-range `get` (an Earth Engine error) is
modelled totally via `List.getD` with a default; all theorems only evaluate
it in range.  The per-pattern map, the per-cell maps and the three
`iterate` passes building the cumulative matrix are modelled as list folds
in the same order as the source.
-/

noncomputable section

/-- Truncation toward zero of a real number, as in a float-to-int cast. -/
def truncR (x : ℝ) : ℤ := if 0 ≤ x then ⌊x⌋ else ⌈x⌉

/-- Model of `ee.Image.toInt16`: truncate toward zero and clamp to the
signed 16-bit range.  The result is returned as a real number because the
source immediately keeps computing with it. -/
def toInt16 (x : ℝ) : ℝ := ((max (-32768) (min 32767 (truncR x)) : ℤ) : ℝ)

/-- Model of `ee.Image.toUint16` (applied to the final score in the source):
truncate toward zero and clamp to the unsigned 16-bit range. -/
def toUint16 (x : ℝ) : ℕ := (max 0 (min 65535 (truncR x))).toNat

/-- Model of `ee.ImageCollection.min()` over the list of per-pattern DTW
images: the pointwise minimum of the collection (0 for the empty
collection, which the source never produces for `patterns_no ≥ 1`). -/
def collMin : List ℝ → ℝ
  | [] => 0
  | h :: t => t.foldl min h

/-- Model of `ee.List.sequence(a, b)`: the naturals from `a` to `b`
inclusive, empty when `b < a`. -/
def seqL (a b : ℕ) : List ℕ := List.range' a (b + 1 - a)

/-- Earth Engine `get` with a possibly negative index wraps from the end of
the list (index `-1` is the last element). -/
def wrapIdx (len : ℕ) (i : ℤ) : ℕ := if i < 0 then ((len : ℤ) + i).toNat else i.toNat

/-- One image of the time series collection: its band values (band index to
value) and its `doy` metadata property. -/
structure EEImage where
  bands : ℕ → ℝ
  doy : ℝ

instance : Inhabited EEImage := ⟨⟨fun _ => 0, 0⟩⟩

/-- The patterns array `patterns_arr` of dimension `[k, n, t]`: pattern
index, band index (the last band row is the day of year), time step. -/
abbrev Patterns := List (List (List ℝ))

/-- `patterns_arr.get([k, n, t])` with Earth Engine negative-index
wrapping on every axis (the source uses `-1` for the day-of-year band row
and `j-2` which is `-1` at the first pattern step). -/
def patGet (arr : Patterns) (k n t : ℤ) : ℝ :=
  let pk := arr.getD (wrapIdx arr.length k) []
  let pn := pk.getD (wrapIdx pk.length n) []
  pn.getD (wrapIdx pn.length t) 0

/-- `dt = |doy(series step i) − doy(pattern step p)|` for pattern `k`
(0-based), read from the image metadata and the last band row of the
patterns array, as in both constraint branches of the source. -/
def dtFun (arr : Patterns) (series : List EEImage) (k : ℕ) (i p : ℕ) : ℝ :=
  |(series.getD i default).doy - patGet arr k (-1) p|

/-- The Euclidean branch of `_distCalc`, iterated over the bands from
`ee.Image(0)`: `Σ_b (toInt16 x_b − y_b)²` at series step `i` and pattern
step `p` of pattern `k` (all 0-based). -/
def euclidSum (arr : Patterns) (series : List EEImage) (band_no k i p : ℕ) : ℝ :=
  ∑ b ∈ Finset.range band_no,
    (toInt16 ((series.getD i default).bands b) - patGet arr k b p) ^ 2

/-- One band's contribution in the angular branch of `_distCalc`:
`acos((x1·y1 + x2·y2) / (sqrt(x1²+x2²) · sqrt(y1²+y2²)))`.  Division by a
zero denominator yields 0 both in Earth Engine and in Lean. -/
def angularBandTerm (x1 x2 y1 y2 : ℝ) : ℝ :=
  Real.arccos ((x1 * y1 + x2 * y2) / (Real.sqrt (x1 ^ 2 + x2 ^ 2) * Real.sqrt (y1 ^ 2 + y2 ^ 2)))

/-- The angular branch of `_distCalc` summed over the bands.  The previous
image is the one before `i` in the (chronologically ordered) collection;
for `i = 0` the `limit 2` selection returns the image itself, which the
truncated subtraction `i - 1 = 0` reproduces.  The previous pattern step is
`j-2` in the source's 1-based indexing, i.e. `p - 1` here, which wraps to
the last step when `p = 0`, as `ee.Array.get` does on index `-1`. -/
def angularSum (arr : Patterns) (series : List EEImage) (band_no k i p : ℕ) : ℝ :=
  ∑ b ∈ Finset.range band_no,
    angularBandTerm (toInt16 ((series.getD i default).bands b))
      (toInt16 ((series.getD (i - 1) default).bands b))
      (patGet arr k b p) (patGet arr k b ((p : ℤ) - 1))

/-- The local cost `dis_sum` of the time-weighted branch: the selected
kernel, with the angular kernel multiplied by `t1.neq(first doy)` (zero at
the first image).  Only evaluated under a recognized `distance_type`. -/
def kernelSum (distance_type : String) (arr : Patterns) (series : List EEImage)
    (band_no k i p : ℕ) : ℝ :=
  if distance_type = "euclidean" then euclidSum arr series band_no k i p
  else
    (if (series.getD i default).doy = (series.getD 0 default).doy then 0 else 1) *
      angularSum arr series band_no k i p

/-- The `cost_weight` computed by the source for `weight_type = 'logistic'`:
`1 / exp(1 + alpha·(dt − beta))`.  Note the parenthesization of the source,
`ee.Image(1).divide(ee.Image(1).add(...).exp())`: the `1` is added before
the exponential is taken. -/
def costWeightLogistic (alpha beta dt : ℝ) : ℝ := 1 / Real.exp (1 + alpha * (dt - beta))

/-- The `cost_weight` computed by the source for `weight_type = 'linear'`:
`alpha·dt + beta`. -/
def costWeightLinear (alpha beta dt : ℝ) : ℝ := alpha * dt + beta

/-- The `cost_weight` dispatch.  Only evaluated under a recognized
`weight_type`. -/
def weightVal (weight_type : String) (alpha beta dt : ℝ) : ℝ :=
  if weight_type = "logistic" then costWeightLogistic alpha beta dt
  else costWeightLinear alpha beta dt

/-- The resolved configuration of one `DTWDist` call, after option
defaulting and shape inference. -/
structure DTWConfig where
  patterns_no : ℕ
  band_no : ℕ
  timeseries_len : ℕ
  patterns_len : ℕ
  constraint_type : String
  weight_type : String
  distance_type : String
  beta : ℝ
  alpha : ℝ

/-- One cell of `dis_mat` in the time-weighted branch:
`sqrt(dis_sum) + cost_weight`. -/
def twCell (cfg : DTWConfig) (arr : Patterns) (series : List EEImage) (k i p : ℕ) : ℝ :=
  Real.sqrt (kernelSum cfg.distance_type arr series cfg.band_no k i p) +
    weightVal cfg.weight_type cfg.alpha cfg.beta (dtFun arr series k i p)

/-- One cell of `dis_mat` in the time-constrained branch: cells with
`dt ≤ beta` get `sqrt(dis_sum)`, cells with `dt > beta` get the constant
`1e6` image. -/
def tcCell (cfg : DTWConfig) (arr : Patterns) (series : List EEImage) (k i p : ℕ) : ℝ :=
  if dtFun arr series k i p ≤ cfg.beta then
    Real.sqrt (euclidSum arr series cfg.band_no k i p)
  else 1000000

/-- The `dis_mat` built for pattern `k`, as a function of the cell indices.
`none` models the failures of the source: an unrecognized
`constraint_type` leaves `dis_mat` undefined; in the time-weighted branch
an unrecognized `distance_type` leaves `dis_arr` undefined inside
`_distCalc` and an unrecognized `weight_type` leaves `cost_weight`
undefined; in the time-constrained branch the angular path reads the
undeclared variable `t1` and any other non-Euclidean `distance_type` again
leaves `dis_arr` undefined. -/
def disMatO (cfg : DTWConfig) (arr : Patterns) (series : List EEImage) (k : ℕ) :
    Option (ℕ → ℕ → ℝ) :=
  if cfg.constraint_type = "time-constrained" then
    if cfg.distance_type = "euclidean" then some (tcCell cfg arr series k) else none
  else if cfg.constraint_type = "time-weighted" then
    if (cfg.distance_type = "euclidean" ∨ cfg.distance_type = "angular") ∧
        (cfg.weight_type = "logistic" ∨ cfg.weight_type = "linear") then
      some (twCell cfg arr series k)
    else none
  else none

/-- First pass of the cumulative matrix: the first row accumulates,
`d_mat = iterate over j = 1..patterns_len-1 of previous[j-1] + dis_mat[0][j]`
starting from `[dis_mat[0][0]]`. -/
def dtwRow0 (d : ℕ → ℕ → ℝ) (P : ℕ) : List ℝ :=
  (seqL 1 (P - 1)).foldl (fun prev j => prev ++ [prev.getD (j - 1) 0 + d 0 j]) [d 0 0]

/-- Second pass: for `i = 1..timeseries_len-1` append the previous row with
its entry 0 replaced by `previous[i-1][0] + dis_mat[i][0]`. -/
def dtwColInit (d : ℕ → ℕ → ℝ) (T : ℕ) (r0 : List ℝ) : List (List ℝ) :=
  (seqL 1 (T - 1)).foldl
    (fun prev i =>
      prev ++ [(prev.getD (i - 1) []).set 0 ((prev.getD (i - 1) []).getD 0 0 + d i 0)])
    [r0]

/-- The flattened index matrix of the source: the pairs `(i, j)` for
`i = 1..timeseries_len-1`, `j = 1..patterns_len-1`, flattened row-major by
the `iterate`/`cat` loop. -/
def dtwPairs (T P : ℕ) : List (ℕ × ℕ) :=
  ((seqL 1 (T - 1)).map (fun i => (seqL 1 (P - 1)).map (fun j => (i, j)))).foldl
    (fun prev x => prev ++ x) []

/-- One step of the third pass at pair `(i, j)`: set
`D[i][j] := min(min(D[i-1][j], D[i][j-1]), D[i-1][j-1]) + dis_mat[i][j]`. -/
def innerStep (d : ℕ → ℕ → ℝ) (prev : List (List ℝ)) (q : ℕ × ℕ) : List (List ℝ) :=
  let i := q.1
  let j := q.2
  let dis :=
    min (min ((prev.getD (i - 1) []).getD j 0) ((prev.getD i []).getD (j - 1) 0))
        ((prev.getD (i - 1) []).getD (j - 1) 0) + d i j
  prev.set i ((prev.getD i []).set j dis)

/-- Third pass: fold `innerStep` over the flattened index matrix. -/
def dtwInner (d : ℕ → ℕ → ℝ) (T P : ℕ) (M0 : List (List ℝ)) : List (List ℝ) :=
  (dtwPairs T P).foldl (innerStep d) M0

/-- The per-pattern alignment distance of the source: run the three passes
and read `D_mat.get(-1).get(-1)`, the last entry of the last row. -/
def alignDTW (d : ℕ → ℕ → ℝ) (T P : ℕ) : ℝ :=
  let M := dtwInner d T P (dtwColInit d T (dtwRow0 d P))
  (M.getD (M.length - 1) []).getD ((M.getD (M.length - 1) []).length - 1) 0

/-- The classic DTW cumulative-cost recurrence of the specification:
`D[0][0] = d[0][0]`, boundary row and column accumulate, and interior cells
add the minimum of the three predecessors. -/
def Dclassic (d : ℕ → ℕ → ℝ) : ℕ → ℕ → ℝ
  | 0, 0 => d 0 0
  | 0, j + 1 => Dclassic d 0 j + d 0 (j + 1)
  | i + 1, 0 => Dclassic d i 0 + d (i + 1) 0
  | i + 1, j + 1 =>
      d (i + 1) (j + 1) +
        min (min (Dclassic d i (j + 1)) (Dclassic d (i + 1) j)) (Dclassic d i j)
  termination_by i j => (i, j)

/-- The caller-supplied options dictionary of `DTWDist`, every field
optional. -/
structure DTWOptions where
  patterns_no : Option ℕ := none
  band_no : Option ℕ := none
  timeseries_len : Option ℕ := none
  patterns_len : Option ℕ := none
  constraint_type : Option String := none
  weight_type : Option String := none
  distance_type : Option String := none
  beta : Option ℝ := none
  alpha : Option ℝ := none

/-- JavaScript `options.x || dflt` defaulting: a missing value or the
type's falsy value (`0` for numbers, `""` for strings) is replaced by the
default. -/
def orD {α : Type} [DecidableEq α] (v : Option α) (falsy dflt : α) : α :=
  match v with
  | none => dflt
  | some x => if x = falsy then dflt else x

/-- Option resolution of `DTWDist`: every option is read with `||`
defaulting, the shape-dependent defaults being inferred from the patterns
array and the collection size. -/
def resolveConfig (opts : DTWOptions) (arr : Patterns) (series : List EEImage) : DTWConfig where
  patterns_no := orD opts.patterns_no 0 arr.length
  band_no := orD opts.band_no 0 ((arr.getD 0 []).length - 1)
  timeseries_len := orD opts.timeseries_len 0 series.length
  patterns_len := orD opts.patterns_len 0 ((arr.getD 0 []).getD 0 []).length
  constraint_type := orD opts.constraint_type "" "time-weighted"
  weight_type := orD opts.weight_type "" "logistic"
  distance_type := orD opts.distance_type "" "euclidean"
  beta := orD opts.beta 0 50
  alpha := orD opts.alpha 0 (0.1 : ℝ)

/-- The alignment distance for pattern `k`: the three passes applied to its
`dis_mat` (when that is defined). -/
def perPattern (cfg : DTWConfig) (arr : Patterns) (series : List EEImage) (k : ℕ) : Option ℝ :=
  (disMatO cfg arr series k).map (fun d => alignDTW d cfg.timeseries_len cfg.patterns_len)

/-- Collect the per-pattern results; any undefined intermediate makes the
whole call fail. -/
def mapO {α β : Type} (f : α → Option β) : List α → Option (List β)
  | [] => some []
  | a :: t =>
    match f a, mapO f t with
    | some b, some bs => some (b :: bs)
    | _, _ => none

/-- The whole of `exports.DTWDist`: resolve the options, compute one
alignment distance per pattern `k = 0..patterns_no-1`, take the collection
minimum and cast it `toUint16`. -/
def DTWDist (opts : DTWOptions) (arr : Patterns) (series : List EEImage) : Option ℕ :=
  let cfg := resolveConfig opts arr series
  (mapO (perPattern cfg arr series) (List.range cfg.patterns_no)).map
    (fun l => toUint16 (collMin l))

/-! ### List helpers -/

lemma getD_map_range {α : Type} (f : ℕ → α) (dflt : α) {m k : ℕ} (h : k < m) :
    ((List.range m).map f).getD k dflt = f k := by
  rw [List.getD_eq_getElem?_getD, List.getElem?_map, List.getElem?_range h]
  rfl

lemma set_map_range {α : Type} (f : ℕ → α) (m k : ℕ) (v : α) :
    ((List.range m).map f).set k v =
      (List.range m).map (fun c => if c = k then v else f c) := by
  apply List.ext_getElem?
  intro n
  rw [List.getElem?_set]
  simp only [List.length_map, List.length_range, List.getElem?_map]
  by_cases hn : n < m
  · rw [List.getElem?_range hn]
    by_cases hkn : k = n
    · subst hkn
      simp [hn]
    · have hnk : ¬n = k := fun h => hkn h.symm
      simp [hkn, hnk]
  · have hnone : (List.range m)[n]? = none := by
      rw [List.getElem?_eq_none_iff]
      simpa using Nat.le_of_not_lt hn
    rw [hnone]
    simp only [Option.map_none']
    split_ifs with h1 h2 <;> first | rfl | omega

lemma seqL_one (m : ℕ) : seqL 1 m = List.range' 1 m := by
  simp [seqL]

/-! ### The classic recurrence: equations and basic bounds -/

lemma Dclassic_zero_zero (d : ℕ → ℕ → ℝ) : Dclassic d 0 0 = d 0 0 := by
  simp [Dclassic]

lemma Dclassic_zero_succ (d : ℕ → ℕ → ℝ) (j : ℕ) :
    Dclassic d 0 (j + 1) = Dclassic d 0 j + d 0 (j + 1) := by
  rw [Dclassic]

lemma Dclassic_succ_zero (d : ℕ → ℕ → ℝ) (i : ℕ) :
    Dclassic d (i + 1) 0 = Dclassic d i 0 + d (i + 1) 0 := by
  rw [Dclassic]

lemma Dclassic_succ_succ (d : ℕ → ℕ → ℝ) (i j : ℕ) :
    Dclassic d (i + 1) (j + 1) =
      d (i + 1) (j + 1) +
        min (min (Dclassic d i (j + 1)) (Dclassic d (i + 1) j)) (Dclassic d i j) := by
  rw [Dclassic]

/-! ### Refinement: the three passes compute the classic recurrence -/

/-- Row `i` of the evolving cumulative matrix, correct through column `j`:
columns `c ≤ j` hold `D[i][c]`, the later columns still hold the copied
first-row values `D[0][c]`. -/
def rowF (d : ℕ → ℕ → ℝ) (P i j : ℕ) : List ℝ :=
  (List.range P).map (fun c => if c ≤ j then Dclassic d i c else Dclassic d 0 c)

lemma rowF_zero (d : ℕ → ℕ → ℝ) (P j j' : ℕ) : rowF d P 0 j = rowF d P 0 j' := by
  unfold rowF
  apply List.map_congr_left
  intro c _
  by_cases h1 : c ≤ j <;> by_cases h2 : c ≤ j' <;> simp [h1, h2]

lemma length_rowF (d : ℕ → ℕ → ℝ) (P i j : ℕ) : (rowF d P i j).length = P := by
  simp [rowF]

lemma getD_rowF (d : ℕ → ℕ → ℝ) {P c : ℕ} (i j : ℕ) (hc : c < P) :
    (rowF d P i j).getD c 0 = if c ≤ j then Dclassic d i c else Dclassic d 0 c := by
  unfold rowF
  rw [getD_map_range _ _ hc]

lemma dtwRow0_aux (d : ℕ → ℕ → ℝ) (n : ℕ) :
    (List.range' 1 n).foldl (fun prev j => prev ++ [prev.getD (j - 1) 0 + d 0 j]) [d 0 0] =
      (List.range (n + 1)).map (Dclassic d 0) := by
  induction n with
  | zero => simp [List.range_succ, Dclassic_zero_zero]
  | succ n ih =>
    rw [List.range'_concat, List.foldl_append, ih]
    simp only [List.foldl_cons, List.foldl_nil]
    have h1 : 1 + 1 * n = n + 1 := by omega
    rw [h1]
    have hget : ((List.range (n + 1)).map (Dclassic d 0)).getD (n + 1 - 1) 0 =
        Dclassic d 0 n := by
      have hn1 : n + 1 - 1 = n := rfl
      rw [hn1, getD_map_range _ _ (Nat.lt_succ_self n)]
    rw [hget]
    conv_rhs => rw [List.range_succ]
    rw [List.map_append, List.map_cons, List.map_nil]
    congr 1
    rw [Dclassic_zero_succ]

lemma dtwRow0_eq (d : ℕ → ℕ → ℝ) {P : ℕ} (hP : 1 ≤ P) :
    dtwRow0 d P = (List.range P).map (Dclassic d 0) := by
  unfold dtwRow0
  rw [seqL_one, dtwRow0_aux]
  have h : P - 1 + 1 = P := by omega
  rw [h]

lemma dtwRow0_eq_rowF (d : ℕ → ℕ → ℝ) {P : ℕ} (hP : 1 ≤ P) (j : ℕ) :
    dtwRow0 d P = rowF d P 0 j := by
  rw [dtwRow0_eq d hP]
  unfold rowF
  apply List.map_congr_left
  intro c _
  by_cases h : c ≤ j <;> simp [h]

lemma dtwColInit_aux (d : ℕ → ℕ → ℝ) {P : ℕ} (hP : 1 ≤ P) (n : ℕ) :
    (List.range' 1 n).foldl
        (fun prev i =>
          prev ++ [(prev.getD (i - 1) []).set 0 ((prev.getD (i - 1) []).getD 0 0 + d i 0)])
        [rowF d P 0 0] =
      (List.range (n + 1)).map (fun r => rowF d P r 0) := by
  induction n with
  | zero => simp [List.range_succ]
  | succ n ih =>
    rw [List.range'_concat, List.foldl_append, ih]
    simp only [List.foldl_cons, List.foldl_nil]
    have h1 : 1 + 1 * n = n + 1 := by omega
    rw [h1]
    have hget : ((List.range (n + 1)).map (fun r => rowF d P r 0)).getD (n + 1 - 1) [] =
        rowF d P n 0 := by
      have hn1 : n + 1 - 1 = n := rfl
      rw [hn1, getD_map_range _ _ (Nat.lt_succ_self n)]
    rw [hget]
    have hget0 : (rowF d P n 0).getD 0 0 = Dclassic d n 0 := by
      rw [getD_rowF d n 0 (by omega)]
      simp
    rw [hget0]
    conv_rhs => rw [List.range_succ]
    rw [List.map_append, List.map_cons, List.map_nil]
    congr 1
    congr 1
    unfold rowF
    rw [set_map_range]
    apply List.map_congr_left
    intro c _
    by_cases hc : c = 0
    · subst hc
      simp [Dclassic_succ_zero]
    · have hc0 : ¬c ≤ 0 := by omega
      simp [hc, hc0]

lemma dtwColInit_eq (d : ℕ → ℕ → ℝ) {T P : ℕ} (hT : 1 ≤ T) (hP : 1 ≤ P) :
    dtwColInit d T (dtwRow0 d P) = (List.range T).map (fun r => rowF d P r 0) := by
  unfold dtwColInit
  rw [seqL_one, dtwRow0_eq_rowF d hP 0, dtwColInit_aux d hP]
  have h : T - 1 + 1 = T := by omega
  rw [h]

/-- The evolving cumulative matrix while the third pass runs: rows before
`i` are final, row `i` is correct through column `j`, later rows still
carry the copied first-row tail. -/
def dtwState (d : ℕ → ℕ → ℝ) (T P i j : ℕ) : List (List ℝ) :=
  (List.range T).map (fun r =>
    if r < i then rowF d P r (P - 1) else if r = i then rowF d P i j else rowF d P r 0)

lemma dtwState_one_zero (d : ℕ → ℕ → ℝ) (T P : ℕ) :
    (List.range T).map (fun r => rowF d P r 0) = dtwState d T P 1 0 := by
  unfold dtwState
  apply List.map_congr_left
  intro r _
  by_cases hr : r < 1
  · have hr0 : r = 0 := by omega
    subst hr0
    simp [rowF_zero d P 0 (P - 1)]
  · by_cases hr1 : r = 1 <;> simp [hr, hr1]

lemma getD_dtwState (d : ℕ → ℕ → ℝ) {T P : ℕ} (i j : ℕ) {r : ℕ} (hr : r < T) :
    (dtwState d T P i j).getD r [] =
      if r < i then rowF d P r (P - 1) else if r = i then rowF d P i j else rowF d P r 0 := by
  unfold dtwState
  rw [getD_map_range _ _ hr]

lemma innerStep_state (d : ℕ → ℕ → ℝ) {T P i j : ℕ}
    (hi : 1 ≤ i) (hiT : i < T) (hj : 1 ≤ j) (hjP : j < P) :
    innerStep d (dtwState d T P i (j - 1)) (i, j) = dtwState d T P i j := by
  obtain ⟨a, rfl⟩ : ∃ a, i = a + 1 := ⟨i - 1, by omega⟩
  obtain ⟨b, rfl⟩ : ∃ b, j = b + 1 := ⟨j - 1, by omega⟩
  have hb1 : b + 1 - 1 = b := rfl
  have ha1 : a + 1 - 1 = a := rfl
  have haT : a < T := by omega
  have hbP : b < P := by omega
  have hb1P : b + 1 < P := hjP
  have hgetA : (dtwState d T P (a + 1) b).getD a [] = rowF d P a (P - 1) := by
    rw [getD_dtwState d (a + 1) b haT]
    simp
  have hgetI : (dtwState d T P (a + 1) b).getD (a + 1) [] = rowF d P (a + 1) b := by
    rw [getD_dtwState d (a + 1) b hiT]
    simp
  unfold innerStep
  simp only [hb1, ha1, hgetA, hgetI]
  have hv1 : (rowF d P a (P - 1)).getD (b + 1) 0 = Dclassic d a (b + 1) := by
    rw [getD_rowF d a (P - 1) hb1P]
    have : b + 1 ≤ P - 1 := by omega
    simp [this]
  have hv2 : (rowF d P (a + 1) b).getD b 0 = Dclassic d (a + 1) b := by
    rw [getD_rowF d (a + 1) b hbP]
    simp
  have hv3 : (rowF d P a (P - 1)).getD b 0 = Dclassic d a b := by
    rw [getD_rowF d a (P - 1) hbP]
    have : b ≤ P - 1 := by omega
    simp [this]
  rw [hv1, hv2, hv3]
  have hrow : (rowF d P (a + 1) b).set (b + 1)
      (min (min (Dclassic d a (b + 1)) (Dclassic d (a + 1) b)) (Dclassic d a b) +
        d (a + 1) (b + 1)) = rowF d P (a + 1) (b + 1) := by
    unfold rowF
    rw [set_map_range]
    apply List.map_congr_left
    intro c _
    by_cases hc : c = b + 1
    · subst hc
      rw [if_pos rfl, if_pos (le_refl (b + 1)), Dclassic_succ_succ]
      ring
    · rw [if_neg hc]
      by_cases hcb : c ≤ b
      · have : c ≤ b + 1 := by omega
        simp [hcb, this]
      · have : ¬c ≤ b + 1 := by omega
        simp [hcb, this]
  rw [hrow]
  unfold dtwState
  rw [set_map_range]
  apply List.map_congr_left
  intro r _
  by_cases hra : r = a + 1
  · subst hra
    simp
  · rw [if_neg hra, if_neg hra, if_neg hra]

lemma dtwInner_row (d : ℕ → ℕ → ℝ) {T P i : ℕ}
    (hi : 1 ≤ i) (hiT : i < T) (hP : 1 ≤ P) :
    ∀ n, n ≤ P - 1 →
      ((List.range' 1 n).map (fun j => (i, j))).foldl (innerStep d) (dtwState d T P i 0) =
        dtwState d T P i n := by
  intro n
  induction n with
  | zero => simp
  | succ n ih =>
    intro hn
    rw [List.range'_concat, List.map_append, List.foldl_append, ih (by omega)]
    simp only [List.map_cons, List.map_nil, List.foldl_cons, List.foldl_nil]
    have h1 : 1 + 1 * n = n + 1 := by omega
    rw [h1]
    have hstep := @innerStep_state d T P i (n + 1) hi hiT (by omega) (by omega)
    simpa using hstep

lemma dtwState_row_done (d : ℕ → ℕ → ℝ) {T P i : ℕ} (hiT : i < T) :
    dtwState d T P i (P - 1) = dtwState d T P (i + 1) 0 := by
  unfold dtwState
  apply List.map_congr_left
  intro r _
  by_cases hr : r < i
  · have h1 : r < i + 1 := by omega
    simp [hr, h1]
  · by_cases hre : r = i
    · subst hre
      have h1 : r < r + 1 := by omega
      simp [hr, h1]
    · have h1 : ¬r < i + 1 := by omega
      by_cases h3 : r = i + 1
      · subst h3
        simp [hr, hre, h1]
      · simp [hr, hre, h1, h3]

/-- The first `m` rows of the flattened index matrix. -/
def pairsM (P m : ℕ) : List (ℕ × ℕ) :=
  ((List.range' 1 m).map (fun i => (List.range' 1 (P - 1)).map (fun j => (i, j)))).foldl
    (fun prev x => prev ++ x) []

lemma foldl_append_acc {α : Type} (ls : List (List α)) (acc : List α) :
    ls.foldl (fun prev x => prev ++ x) acc = acc ++ ls.foldl (fun prev x => prev ++ x) [] := by
  induction ls generalizing acc with
  | nil => simp
  | cons h t ih =>
    simp only [List.foldl_cons, List.nil_append]
    rw [ih (acc ++ h), ih h, List.append_assoc]

lemma pairsM_succ (P m : ℕ) :
    pairsM P (m + 1) = pairsM P m ++ (List.range' 1 (P - 1)).map (fun j => (m + 1, j)) := by
  unfold pairsM
  rw [List.range'_concat, List.map_append, List.foldl_append]
  simp only [List.map_cons, List.map_nil, List.foldl_cons, List.foldl_nil]
  rw [foldl_append_acc]
  have h1 : 1 + 1 * m = m + 1 := by omega
  rw [h1]

lemma dtwPairs_eq_pairsM (T P : ℕ) : dtwPairs T P = pairsM P (T - 1) := by
  unfold dtwPairs pairsM
  rw [seqL_one, seqL_one]

lemma dtwInner_all (d : ℕ → ℕ → ℝ) {T P : ℕ} (hP : 1 ≤ P) :
    ∀ m, m ≤ T - 1 →
      (pairsM P m).foldl (innerStep d) (dtwState d T P 1 0) = dtwState d T P (m + 1) 0 := by
  intro m
  induction m with
  | zero => simp [pairsM]
  | succ m ih =>
    intro hm
    have hmT : m + 1 < T := by omega
    rw [pairsM_succ, List.foldl_append, ih (by omega)]
    have hrow := @dtwInner_row d T P (m + 1) (by omega) hmT hP (P - 1) (le_refl _)
    rw [hrow, dtwState_row_done d hmT]

/-- After the three passes, every row of the cumulative matrix is final. -/
lemma dtwFinal_eq (d : ℕ → ℕ → ℝ) {T P : ℕ} (hT : 1 ≤ T) (hP : 1 ≤ P) :
    dtwInner d T P (dtwColInit d T (dtwRow0 d P)) =
      (List.range T).map (fun r => rowF d P r (P - 1)) := by
  unfold dtwInner
  rw [dtwPairs_eq_pairsM, dtwColInit_eq d hT hP, dtwState_one_zero,
    dtwInner_all d hP (T - 1) (le_refl _)]
  have hTT : T - 1 + 1 = T := by omega
  rw [hTT]
  unfold dtwState
  apply List.map_congr_left
  intro r hr
  rw [List.mem_range] at hr
  simp [hr]

/-- Every cell of the computed cumulative matrix satisfies the classic
recurrence. -/
lemma dtwMatrix_cell (d : ℕ → ℕ → ℝ) {T P i j : ℕ} (hT : 1 ≤ T) (hP : 1 ≤ P)
    (hi : i < T) (hj : j < P) :
    ((dtwInner d T P (dtwColInit d T (dtwRow0 d P))).getD i []).getD j 0 = Dclassic d i j := by
  rw [dtwFinal_eq d hT hP, getD_map_range _ _ hi, getD_rowF d i (P - 1) hj]
  have h : j ≤ P - 1 := by omega
  simp [h]

/-- The heart of the verification: for any local cost matrix and lengths at
least 1, the three `iterate` passes of the source compute exactly the
classic DTW recurrence and return `D[timeseries_len-1][patterns_len-1]`. -/
lemma alignDTW_eq_classic (d : ℕ → ℕ → ℝ) {T P : ℕ} (hT : 1 ≤ T) (hP : 1 ≤ P) :
    alignDTW d T P = Dclassic d (T - 1) (P - 1) := by
  unfold alignDTW
  rw [dtwFinal_eq d hT hP]
  dsimp only
  have hlen : ((List.range T).map (fun r => rowF d P r (P - 1))).length = T := by simp
  rw [hlen]
  have hget : ((List.range T).map (fun r => rowF d P r (P - 1))).getD (T - 1) [] =
      rowF d P (T - 1) (P - 1) := getD_map_range _ _ (by omega)
  rw [hget, length_rowF]
  rw [getD_rowF d (T - 1) (P - 1) (by omega)]
  simp

/-! ### Bounds on the classic recurrence -/

lemma Dclassic_nonneg (d : ℕ → ℕ → ℝ) (hd : ∀ i j, 0 ≤ d i j) :
    ∀ i j, 0 ≤ Dclassic d i j := by
  intro i
  induction i with
  | zero =>
    intro j
    induction j with
    | zero => rw [Dclassic_zero_zero]; exact hd 0 0
    | succ j ihj => rw [Dclassic_zero_succ]; exact add_nonneg ihj (hd 0 (j + 1))
  | succ i ihi =>
    intro j
    induction j with
    | zero => rw [Dclassic_succ_zero]; exact add_nonneg (ihi 0) (hd (i + 1) 0)
    | succ j ihj =>
      rw [Dclassic_succ_succ]
      refine add_nonneg (hd (i + 1) (j + 1)) ?_
      exact le_min (le_min (ihi (j + 1)) ihj) (ihi j)

lemma Dclassic_diag_le_zero (d : ℕ → ℕ → ℝ) (m : ℕ) (hdiag : ∀ t, t ≤ m → d t t = 0) :
    Dclassic d m m ≤ 0 := by
  induction m with
  | zero => rw [Dclassic_zero_zero, hdiag 0 (le_refl 0)]
  | succ m ih =>
    rw [Dclassic_succ_succ, hdiag (m + 1) (le_refl _)]
    have hmin : min (min (Dclassic d m (m + 1)) (Dclassic d (m + 1) m)) (Dclassic d m m) ≤
        Dclassic d m m := min_le_right _ _
    have := ih (fun t ht => hdiag t (by omega))
    linarith

lemma Dclassic_diag_zero (d : ℕ → ℕ → ℝ) (m : ℕ) (hd : ∀ i j, 0 ≤ d i j)
    (hdiag : ∀ t, t ≤ m → d t t = 0) : Dclassic d m m = 0 :=
  le_antisymm (Dclassic_diag_le_zero d m hdiag) (Dclassic_nonneg d hd m m)

/-! ### The collection minimum -/

lemma foldl_min_le_init (x : ℝ) (l : List ℝ) : l.foldl min x ≤ x := by
  induction l generalizing x with
  | nil => simp
  | cons h t ih => exact le_trans (ih (min x h)) (min_le_left x h)

lemma collMin_mem (l : List ℝ) (hl : l ≠ []) : collMin l ∈ l := by
  match l with
  | h :: t =>
    unfold collMin
    clear hl
    induction t generalizing h with
    | nil => simp
    | cons a t ih =>
      simp only [List.foldl_cons]
      rcases List.mem_cons.mp (ih (min h a)) with hm | hm
      · rcases min_cases h a with ⟨he, _⟩ | ⟨he, _⟩
        · exact List.mem_cons.mpr (Or.inl (hm.trans he))
        · exact List.mem_cons.mpr (Or.inr (List.mem_cons.mpr (Or.inl (hm.trans he))))
      · exact List.mem_cons.mpr (Or.inr (List.mem_cons.mpr (Or.inr hm)))

lemma collMin_le (l : List ℝ) : ∀ x ∈ l, collMin l ≤ x := by
  match l with
  | [] => intro x hx; simp at hx
  | h :: t =>
    unfold collMin
    induction t generalizing h with
    | nil => intro x hx; simp at hx; simp [hx]
    | cons a t ih =>
      intro x hx
      simp only [List.foldl_cons]
      rcases List.mem_cons.mp hx with hx1 | hx2
      · subst hx1
        exact le_trans (foldl_min_le_init _ _) (min_le_left _ _)
      · rcases List.mem_cons.mp hx2 with hx1 | hx3
        · subst hx1
          exact le_trans (foldl_min_le_init _ _) (min_le_right _ _)
        · exact ih (min h a) x (List.mem_cons_of_mem _ hx3)

lemma collMin_perm {l l' : List ℝ} (h : l.Perm l') : collMin l = collMin l' := by
  rcases eq_or_ne l [] with rfl | hne
  · rw [List.Perm.eq_nil h.symm]
  · have hne' : l' ≠ [] := fun hc => hne (List.Perm.eq_nil (hc ▸ h))
    apply le_antisymm
    · exact collMin_le l _ (h.mem_iff.mpr (collMin_mem l' hne'))
    · exact collMin_le l' _ (h.mem_iff.mp (collMin_mem l hne))

lemma collMin_eq_zero {l : List ℝ} (hmem : (0 : ℝ) ∈ l) (hpos : ∀ x ∈ l, 0 ≤ x) :
    collMin l = 0 := by
  have hne : l ≠ [] := fun hc => by subst hc; simp at hmem
  exact le_antisymm (collMin_le l 0 hmem) (hpos _ (collMin_mem l hne))

/-! ### Warping paths -/

/-- One admissible move of a warping path: one step down, one step right,
or one diagonal step. -/
def isStep (a b : ℕ × ℕ) : Prop :=
  (b.1 = a.1 + 1 ∧ b.2 = a.2) ∨ (b.1 = a.1 ∧ b.2 = a.2 + 1) ∨
    (b.1 = a.1 + 1 ∧ b.2 = a.2 + 1)

/-- A warping path through a `T × P` cost matrix: a chain of admissible
moves from cell `(0,0)` to cell `(T-1, P-1)`. -/
def IsWarpPath (T P : ℕ) (p : List (ℕ × ℕ)) : Prop :=
  p.Chain' isStep ∧ p.head? = some (0, 0) ∧ p.getLast? = some (T - 1, P - 1)

/-- The cost of a path: the sum of the local-cost cells it visits. -/
def pathCost (d : ℕ → ℕ → ℝ) (p : List (ℕ × ℕ)) : ℝ :=
  (p.map (fun c => d c.1 c.2)).sum

lemma pathCost_ge_cell (d : ℕ → ℕ → ℝ) (p : List (ℕ × ℕ)) (hd : ∀ i j, 0 ≤ d i j)
    {c : ℕ × ℕ} (hc : c ∈ p) : d c.1 c.2 ≤ pathCost d p := by
  unfold pathCost
  refine List.single_le_sum ?_ _ (List.mem_map_of_mem _ hc)
  intro x hx
  obtain ⟨c', -, rfl⟩ := List.mem_map.mp hx
  exact hd c'.1 c'.2

lemma chain_le_getLast :
    ∀ (p : List (ℕ × ℕ)), p.Chain' isStep → ∀ b, p.getLast? = some b →
      ∀ c ∈ p, c.1 ≤ b.1 ∧ c.2 ≤ b.2 := by
  intro p
  induction p with
  | nil => intro _ b hb; simp at hb
  | cons x t ih =>
    intro hch b hb c hc
    match t with
    | [] =>
      simp at hb hc
      subst hb
      subst hc
      exact ⟨le_refl _, le_refl _⟩
    | y :: t' =>
      rw [List.chain'_cons] at hch
      rw [List.getLast?_cons_cons] at hb
      rcases List.mem_cons.mp hc with rfl | hct
      · have hyb := ih hch.2 b hb y (List.mem_cons_self _ _)
        have hxy : c.1 ≤ y.1 ∧ c.2 ≤ y.2 := by
          rcases hch.1 with ⟨h1, h2⟩ | ⟨h1, h2⟩ | ⟨h1, h2⟩ <;> omega
        exact ⟨le_trans hxy.1 hyb.1, le_trans hxy.2 hyb.2⟩
      · exact ih hch.2 b hb c hct

lemma chain_snd_crossing :
    ∀ (p : List (ℕ × ℕ)), p.Chain' isStep → ∀ a b, p.head? = some a →
      p.getLast? = some b → ∀ m, a.2 ≤ m → m ≤ b.2 → ∃ c ∈ p, c.2 = m := by
  intro p
  induction p with
  | nil => intro _ a b ha; simp at ha
  | cons x t ih =>
    intro hch a b ha hb m ham hmb
    simp only [List.head?_cons, Option.some_inj] at ha
    subst ha
    match t with
    | [] =>
      simp at hb
      subst hb
      exact ⟨x, List.mem_cons_self _ _, by omega⟩
    | y :: t' =>
      by_cases hm : m = x.2
      · exact ⟨x, List.mem_cons_self _ _, hm.symm⟩
      · rw [List.chain'_cons] at hch
        rw [List.getLast?_cons_cons] at hb
        have hym : y.2 ≤ m := by
          rcases hch.1 with ⟨h1, h2⟩ | ⟨h1, h2⟩ | ⟨h1, h2⟩ <;> omega
        obtain ⟨c, hc, hcm⟩ := ih hch.2 y b rfl hb m hym hmb
        exact ⟨c, List.mem_cons_of_mem _ hc, hcm⟩

/-! ### Evaluation helpers for the casts and the option pipeline -/

lemma truncR_intCast (z : ℤ) : truncR (z : ℝ) = z := by
  unfold truncR
  by_cases h : (0 : ℝ) ≤ (z : ℝ) <;> simp [h]

lemma toInt16_intCast (z : ℤ) (h1 : -32768 ≤ z) (h2 : z ≤ 32767) : toInt16 (z : ℝ) = z := by
  unfold toInt16
  rw [truncR_intCast]
  rw [min_eq_right h2, max_eq_right h1]

lemma toUint16_intCast (z : ℤ) (h1 : 0 ≤ z) (h2 : z ≤ 65535) :
    toUint16 (z : ℝ) = z.toNat := by
  unfold toUint16
  rw [truncR_intCast, min_eq_right h2, max_eq_right h1]

lemma mapO_some {α β : Type} (f : α → Option β) (g : α → β) (l : List α)
    (h : ∀ a ∈ l, f a = some (g a)) : mapO f l = some (l.map g) := by
  induction l with
  | nil => simp [mapO]
  | cons a t ih =>
    unfold mapO
    rw [h a (List.mem_cons_self _ _), ih (fun x hx => h x (List.mem_cons_of_mem _ hx))]
    simp

lemma mapO_none {α β : Type} (f : α → Option β) (l : List α) {a : α}
    (ha : a ∈ l) (hfa : f a = none) : mapO f l = none := by
  induction l with
  | nil => simp at ha
  | cons x t ih =>
    unfold mapO
    rcases List.mem_cons.mp ha with rfl | hat
    · rw [hfa]
    · rw [ih hat]
      rcases f x <;> rfl

lemma disMatO_tc (cfg : DTWConfig) (arr : Patterns) (series : List EEImage) (k : ℕ)
    (hc : cfg.constraint_type = "time-constrained") (hd : cfg.distance_type = "euclidean") :
    disMatO cfg arr series k = some (tcCell cfg arr series k) := by
  simp [disMatO, hc, hd]

lemma disMatO_unrecognized (cfg : DTWConfig) (arr : Patterns) (series : List EEImage) (k : ℕ)
    (hc1 : cfg.constraint_type ≠ "time-constrained")
    (hc2 : cfg.constraint_type ≠ "time-weighted") :
    disMatO cfg arr series k = none := by
  simp [disMatO, hc1, hc2]

lemma tcCell_nonneg (cfg : DTWConfig) (arr : Patterns) (series : List EEImage) (k i p : ℕ) :
    0 ≤ tcCell cfg arr series k i p := by
  unfold tcCell
  split
  · exact Real.sqrt_nonneg _
  · norm_num

lemma toUint16_zero : toUint16 0 = 0 := by
  unfold toUint16 truncR
  norm_num

/-! ### Claim C1 -/

/-- C1: for every local cost matrix `d` of shape
`timeseries_len × patterns_len` (both at least 1), the engine computes the
cumulative matrix `D` by the classic DTW recurrence — `D[0][0] = d[0][0]`,
the boundary row and column accumulate, interior cells add
`min(D[i-1][j], D[i][j-1], D[i-1][j-1])` — and the per-pattern result it
returns equals `D[timeseries_len-1][patterns_len-1]`. -/
theorem C1_alignment_engine_recurrence (d : ℕ → ℕ → ℝ) (T P : ℕ)
    (hT : 1 ≤ T) (hP : 1 ≤ P) :
    (∀ i j, i < T → j < P →
      ((dtwInner d T P (dtwColInit d T (dtwRow0 d P))).getD i []).getD j 0 = Dclassic d i j) ∧
    alignDTW d T P = Dclassic d (T - 1) (P - 1) :=
  ⟨fun _ _ hi hj => dtwMatrix_cell d hT hP hi hj, alignDTW_eq_classic d hT hP⟩

/-- Witness for C1 at the concrete 2×2 cost matrix `d i j = i + j`. -/
theorem C1_alignment_engine_recurrence_witness :
    (∀ i j, i < 2 → j < 2 →
      ((dtwInner (fun i j => (i + j : ℝ)) 2 2
          (dtwColInit (fun i j => (i + j : ℝ)) 2 (dtwRow0 (fun i j => (i + j : ℝ)) 2))).getD
            i []).getD j 0 =
        Dclassic (fun i j => (i + j : ℝ)) i j) ∧
    alignDTW (fun i j => (i + j : ℝ)) 2 2 = Dclassic (fun i j => (i + j : ℝ)) 1 1 :=
  C1_alignment_engine_recurrence (fun i j => (i + j : ℝ)) 2 2 (by norm_num) (by norm_num)

/-! ### Claim C2 -/

/-- C2: the claim states the logistic weight
`1 / (1 + exp(alpha·(dt − beta)))`, but the source parenthesizes the
denominator as `exp(1 + alpha·(dt − beta))` (`costWeightLogistic`): at
`alpha = 0.1`, `beta = 50`, `dt = 50` the code produces `1/e ≈ 0.368`
where the documented logistic weight is exactly `1/2`. -/
theorem C2_logistic_weight_diverges :
    costWeightLogistic 0.1 50 50 = 1 / Real.exp 1 ∧
    1 / (1 + Real.exp (0.1 * ((50 : ℝ) - 50))) = 1 / 2 ∧
    costWeightLogistic 0.1 50 50 ≠ 1 / (1 + Real.exp (0.1 * ((50 : ℝ) - 50))) := by
  have hcw : costWeightLogistic 0.1 50 50 = 1 / Real.exp 1 := by
    unfold costWeightLogistic
    norm_num
  have hsp : 1 / (1 + Real.exp (0.1 * ((50 : ℝ) - 50))) = 1 / 2 := by
    norm_num [Real.exp_zero]
  refine ⟨hcw, hsp, ?_⟩
  rw [hcw, hsp]
  have h2 : (2 : ℝ) < Real.exp 1 := lt_trans (by norm_num) Real.exp_one_gt_d9
  have hlt : 1 / Real.exp 1 < 1 / 2 := one_div_lt_one_div_of_lt (by norm_num) h2
  exact ne_of_lt hlt

/-! ### Claim C10 -/

/-- C10: every option is read with JavaScript `||` defaulting, so a falsy
(zero) caller-supplied value is silently replaced: `alpha = 0` becomes
`0.1`, `beta = 0` becomes `50`, and zero counts/lengths are replaced by the
shapes inferred from the inputs; in particular zero can never be configured
for `alpha` or `beta`. -/
theorem C10_falsy_options_defaulted :
    (∀ (opts : DTWOptions) (arr : Patterns) (series : List EEImage),
      (resolveConfig { opts with alpha := some 0 } arr series).alpha = 0.1) ∧
    (∀ (opts : DTWOptions) (arr : Patterns) (series : List EEImage),
      (resolveConfig { opts with beta := some 0 } arr series).beta = 50) ∧
    (∀ (opts : DTWOptions) (arr : Patterns) (series : List EEImage),
      (resolveConfig { opts with patterns_no := some 0 } arr series).patterns_no =
        arr.length) ∧
    (∀ (opts : DTWOptions) (arr : Patterns) (series : List EEImage),
      (resolveConfig { opts with band_no := some 0 } arr series).band_no =
        (arr.getD 0 []).length - 1) ∧
    (∀ (opts : DTWOptions) (arr : Patterns) (series : List EEImage),
      (resolveConfig { opts with timeseries_len := some 0 } arr series).timeseries_len =
        series.length) ∧
    (∀ (opts : DTWOptions) (arr : Patterns) (series : List EEImage),
      (resolveConfig { opts with patterns_len := some 0 } arr series).patterns_len =
        ((arr.getD 0 []).getD 0 []).length) ∧
    (∀ (opts : DTWOptions) (arr : Patterns) (series : List EEImage),
      (resolveConfig opts arr series).alpha ≠ 0) ∧
    (∀ (opts : DTWOptions) (arr : Patterns) (series : List EEImage),
      (resolveConfig opts arr series).beta ≠ 0) := by
  refine ⟨?_, ?_, ?_, ?_, ?_, ?_, ?_, ?_⟩ <;> intro opts arr series
  · simp [resolveConfig, orD]
  · simp [resolveConfig, orD]
  · simp [resolveConfig, orD]
  · simp [resolveConfig, orD]
  · simp [resolveConfig, orD]
  · simp [resolveConfig, orD]
  · show orD opts.alpha 0 (0.1 : ℝ) ≠ 0
    unfold orD
    rcases opts.alpha with _ | x
    · norm_num
    · dsimp only
      split_ifs with h
      · norm_num
      · exact h
  · show orD opts.beta 0 (50 : ℝ) ≠ 0
    unfold orD
    rcases opts.beta with _ | x
    · norm_num
    · dsimp only
      split_ifs with h
      · norm_num
      · exact h

/-! ### Claim C6 -/

/-- C6: with `distance_type = 'angular'`, for every step pair that has a
preceding pair (series index `i ≥ 1`, pattern step `p ≥ 1`), the local
cost is the sum over bands of
`arccos((x·y + x_prev·y_prev) / (‖(x, x_prev)‖·‖(y, y_prev)‖))` over the
2-step stacked per-band vectors, and the result is non-negative. -/
theorem C6_angular_kernel_formula (arr : Patterns) (series : List EEImage)
    (band_no k i p : ℕ) (_hi : 1 ≤ i) (hp : 1 ≤ p) :
    angularSum arr series band_no k i p =
      (∑ b ∈ Finset.range band_no,
        Real.arccos
          ((toInt16 ((series.getD i default).bands b) * patGet arr k b p +
              toInt16 ((series.getD (i - 1) default).bands b) * patGet arr k b (p - 1 : ℕ)) /
            (Real.sqrt (toInt16 ((series.getD i default).bands b) ^ 2 +
                toInt16 ((series.getD (i - 1) default).bands b) ^ 2) *
              Real.sqrt (patGet arr k b p ^ 2 + patGet arr k b (p - 1 : ℕ) ^ 2)))) ∧
    0 ≤ angularSum arr series band_no k i p := by
  constructor
  · unfold angularSum angularBandTerm
    apply Finset.sum_congr rfl
    intro b _
    have hcast : (p : ℤ) - 1 = ((p - 1 : ℕ) : ℤ) := by omega
    rw [hcast]
  · unfold angularSum
    apply Finset.sum_nonneg
    intro b _
    exact Real.arccos_nonneg _

/-- Witness for C6 on a concrete one-band series/pattern pair. -/
theorem C6_angular_kernel_formula_witness :
    angularSum [[[1, 2], [3, 4]]] [⟨fun _ => 1, 3⟩, ⟨fun _ => 2, 4⟩] 1 0 1 1 =
      (∑ b ∈ Finset.range 1,
        Real.arccos
          ((toInt16 ((([⟨fun _ => 1, 3⟩, ⟨fun _ => 2, 4⟩] : List EEImage).getD 1
                  default).bands b) *
              patGet [[[1, 2], [3, 4]]] 0 b 1 +
              toInt16 ((([⟨fun _ => 1, 3⟩, ⟨fun _ => 2, 4⟩] : List EEImage).getD (1 - 1)
                  default).bands b) *
                patGet [[[1, 2], [3, 4]]] 0 b (1 - 1 : ℕ)) /
            (Real.sqrt
                (toInt16 ((([⟨fun _ => 1, 3⟩, ⟨fun _ => 2, 4⟩] : List EEImage).getD 1
                      default).bands b) ^ 2 +
                  toInt16 ((([⟨fun _ => 1, 3⟩, ⟨fun _ => 2, 4⟩] : List EEImage).getD (1 - 1)
                      default).bands b) ^ 2) *
              Real.sqrt (patGet [[[1, 2], [3, 4]]] 0 b 1 ^ 2 +
                patGet [[[1, 2], [3, 4]]] 0 b (1 - 1 : ℕ) ^ 2)))) ∧
    0 ≤ angularSum [[[1, 2], [3, 4]]] [⟨fun _ => 1, 3⟩, ⟨fun _ => 2, 4⟩] 1 0 1 1 :=
  C6_angular_kernel_formula [[[1, 2], [3, 4]]] [⟨fun _ => 1, 3⟩, ⟨fun _ => 2, 4⟩] 1 0 1 1
    (le_refl 1) (le_refl 1)

/-! ### Claim C9 -/

/-- Concrete data for C9: a one-band pattern and a series whose stacked
step vector is `(0, 0)`. -/
def arrC9 : Patterns := [[[1, 1], [3, 4]]]

def seriesC9 : List EEImage := [⟨fun _ => 0, 3⟩, ⟨fun _ => 0, 4⟩]

/-- C9 counterexample: with a zero-norm stacked series vector the angular
kernel does not crash, but the cost of the pair is `arccos 0 = π/2`
(Earth Engine division by zero yields 0), not the claimed 0. -/
theorem C9_zero_norm_cost_is_pi_half_not_zero :
    angularSum arrC9 seriesC9 1 0 1 1 = Real.pi / 2 ∧ Real.pi / 2 ≠ 0 := by
  constructor
  · unfold angularSum angularBandTerm
    rw [Finset.sum_range_one]
    have hx : toInt16 ((seriesC9.getD 1 default).bands 0) = 0 := by
      norm_num [seriesC9, toInt16, truncR]
    have hx2 : toInt16 ((seriesC9.getD (1 - 1) default).bands 0) = 0 := by
      norm_num [seriesC9, toInt16, truncR]
    rw [hx, hx2]
    norm_num [Real.arccos_zero]
  · have := Real.pi_pos
    intro h
    rw [div_eq_zero_iff] at h
    rcases h with h | h <;> linarith

/-- C9 amended: a zero-norm stacked vector on either side does not crash
the kernel and is handled deterministically; the band's cost contribution
is `arccos 0 = π/2` because the division returns 0. -/
theorem C9_zero_norm_band_term (x1 x2 y1 y2 : ℝ)
    (h : Real.sqrt (x1 ^ 2 + x2 ^ 2) * Real.sqrt (y1 ^ 2 + y2 ^ 2) = 0) :
    angularBandTerm x1 x2 y1 y2 = Real.pi / 2 := by
  unfold angularBandTerm
  rw [h, div_zero, Real.arccos_zero]

/-- Witness for C9 at the zero stacked vector `(0, 0)` against `(1, 1)`. -/
theorem C9_zero_norm_band_term_witness :
    angularBandTerm 0 0 1 1 = Real.pi / 2 :=
  C9_zero_norm_band_term 0 0 1 1 (by norm_num)

/-! ### Claim C3 -/

/-- A path is penalty-free when every visited cell is inside the hard time
window `dt ≤ beta`. -/
def PenaltyFree (arr : Patterns) (series : List EEImage) (k : ℕ) (beta : ℝ)
    (pth : List (ℕ × ℕ)) : Prop :=
  ∀ c ∈ pth, dtFun arr series k c.1 c.2 ≤ beta

/-- C3 amended: every `dt ≤ beta` cell receives `sqrt(cost)` and every
`dt > beta` cell the fixed penalty `1e6`; consequently the minimizing path
avoids `dt > beta` cells whenever a `dt ≤ beta` alternative of total cost
below the `1e6` penalty exists (without that bound the avoidance can fail,
see the counterexample). -/
theorem C3_time_constrained_window (cfg : DTWConfig) (arr : Patterns)
    (series : List EEImage) (k : ℕ)
    (hc : cfg.constraint_type = "time-constrained")
    (hd : cfg.distance_type = "euclidean") :
    disMatO cfg arr series k = some (tcCell cfg arr series k) ∧
    (∀ i p, dtFun arr series k i p ≤ cfg.beta →
      tcCell cfg arr series k i p = Real.sqrt (euclidSum arr series cfg.band_no k i p)) ∧
    (∀ i p, cfg.beta < dtFun arr series k i p → tcCell cfg arr series k i p = 1000000) ∧
    (∀ T P q pth, IsWarpPath T P q → IsWarpPath T P pth →
      PenaltyFree arr series k cfg.beta q →
      pathCost (tcCell cfg arr series k) q < 1000000 →
      pathCost (tcCell cfg arr series k) pth ≤ pathCost (tcCell cfg arr series k) q →
      PenaltyFree arr series k cfg.beta pth) := by
  refine ⟨disMatO_tc cfg arr series k hc hd, ?_, ?_, ?_⟩
  · intro i p h
    unfold tcCell
    rw [if_pos h]
  · intro i p h
    unfold tcCell
    rw [if_neg (not_le.mpr h)]
  · intro T P q pth _ _ _ hlt hle c hcmem
    by_contra hgt
    push_neg at hgt
    have hcell : tcCell cfg arr series k c.1 c.2 = 1000000 := by
      unfold tcCell
      rw [if_neg (not_le.mpr hgt)]
    have hge := pathCost_ge_cell (tcCell cfg arr series k) pth
      (fun i p => tcCell_nonneg cfg arr series k i p) hcmem
    rw [hcell] at hge
    linarith

/-- Concrete data for the C3 counterexample: one one-band pattern whose
middle step is far from the series values, so that the only in-window
(`dt ≤ beta`) way across the middle column is enormously expensive. -/
def arrC3 : Patterns := [[[0, 4000000, 0], [0, 10, 10]]]

def seriesC3 : List EEImage := [⟨fun _ => 0, 0⟩, ⟨fun _ => 0, 10⟩]

def cfgC3 : DTWConfig :=
  { patterns_no := 1, band_no := 1, timeseries_len := 2, patterns_len := 3,
    constraint_type := "time-constrained", weight_type := "logistic",
    distance_type := "euclidean", beta := 5, alpha := 0.1 }

lemma toInt16_zero : toInt16 0 = 0 := by
  norm_num [toInt16, truncR]

lemma dtC3_00 : dtFun arrC3 seriesC3 0 0 0 = 0 := by
  unfold dtFun
  rw [show (seriesC3.getD 0 default).doy = 0 from rfl,
    show patGet arrC3 ((0 : ℕ) : ℤ) (-1) ((0 : ℕ) : ℤ) = 0 from rfl]
  norm_num

lemma dtC3_01 : dtFun arrC3 seriesC3 0 0 1 = 10 := by
  unfold dtFun
  rw [show (seriesC3.getD 0 default).doy = 0 from rfl,
    show patGet arrC3 ((0 : ℕ) : ℤ) (-1) ((1 : ℕ) : ℤ) = 10 from rfl]
  norm_num

lemma dtC3_02 : dtFun arrC3 seriesC3 0 0 2 = 10 := by
  unfold dtFun
  rw [show (seriesC3.getD 0 default).doy = 0 from rfl,
    show patGet arrC3 ((0 : ℕ) : ℤ) (-1) ((2 : ℕ) : ℤ) = 10 from rfl]
  norm_num

lemma dtC3_10 : dtFun arrC3 seriesC3 0 1 0 = 10 := by
  unfold dtFun
  rw [show (seriesC3.getD 1 default).doy = 10 from rfl,
    show patGet arrC3 ((0 : ℕ) : ℤ) (-1) ((0 : ℕ) : ℤ) = 0 from rfl]
  norm_num

lemma dtC3_11 : dtFun arrC3 seriesC3 0 1 1 = 0 := by
  unfold dtFun
  rw [show (seriesC3.getD 1 default).doy = 10 from rfl,
    show patGet arrC3 ((0 : ℕ) : ℤ) (-1) ((1 : ℕ) : ℤ) = 10 from rfl]
  norm_num

lemma dtC3_12 : dtFun arrC3 seriesC3 0 1 2 = 0 := by
  unfold dtFun
  rw [show (seriesC3.getD 1 default).doy = 10 from rfl,
    show patGet arrC3 ((0 : ℕ) : ℤ) (-1) ((2 : ℕ) : ℤ) = 10 from rfl]
  norm_num

lemma cellC3_00 : tcCell cfgC3 arrC3 seriesC3 0 0 0 = 0 := by
  unfold tcCell
  rw [dtC3_00, if_pos (show (0 : ℝ) ≤ cfgC3.beta by norm_num [cfgC3])]
  unfold euclidSum
  rw [show cfgC3.band_no = 1 from rfl, Finset.sum_range_one,
    show (seriesC3.getD 0 default).bands 0 = 0 from rfl,
    show patGet arrC3 ((0 : ℕ) : ℤ) ((0 : ℕ) : ℤ) ((0 : ℕ) : ℤ) = 0 from rfl, toInt16_zero]
  norm_num

lemma cellC3_01 : tcCell cfgC3 arrC3 seriesC3 0 0 1 = 1000000 := by
  unfold tcCell
  rw [dtC3_01, if_neg (show ¬(10 : ℝ) ≤ cfgC3.beta by norm_num [cfgC3])]

lemma cellC3_02 : tcCell cfgC3 arrC3 seriesC3 0 0 2 = 1000000 := by
  unfold tcCell
  rw [dtC3_02, if_neg (show ¬(10 : ℝ) ≤ cfgC3.beta by norm_num [cfgC3])]

lemma cellC3_10 : tcCell cfgC3 arrC3 seriesC3 0 1 0 = 1000000 := by
  unfold tcCell
  rw [dtC3_10, if_neg (show ¬(10 : ℝ) ≤ cfgC3.beta by norm_num [cfgC3])]

lemma cellC3_11 : tcCell cfgC3 arrC3 seriesC3 0 1 1 = 4000000 := by
  unfold tcCell
  rw [dtC3_11, if_pos (show (0 : ℝ) ≤ cfgC3.beta by norm_num [cfgC3])]
  have h : euclidSum arrC3 seriesC3 cfgC3.band_no 0 1 1 = 4000000 ^ 2 := by
    unfold euclidSum
    rw [show cfgC3.band_no = 1 from rfl, Finset.sum_range_one,
      show (seriesC3.getD 1 default).bands 0 = 0 from rfl,
      show patGet arrC3 ((0 : ℕ) : ℤ) ((0 : ℕ) : ℤ) ((1 : ℕ) : ℤ) = 4000000 from rfl,
      toInt16_zero]
    norm_num
  rw [h, Real.sqrt_sq (by norm_num)]

lemma cellC3_12 : tcCell cfgC3 arrC3 seriesC3 0 1 2 = 0 := by
  unfold tcCell
  rw [dtC3_12, if_pos (show (0 : ℝ) ≤ cfgC3.beta by norm_num [cfgC3])]
  unfold euclidSum
  rw [show cfgC3.band_no = 1 from rfl, Finset.sum_range_one,
    show (seriesC3.getD 1 default).bands 0 = 0 from rfl,
    show patGet arrC3 ((0 : ℕ) : ℤ) ((0 : ℕ) : ℤ) ((2 : ℕ) : ℤ) = 0 from rfl, toInt16_zero]
  norm_num

lemma isWarpPathC3_free : IsWarpPath 2 3 [(0, 0), (1, 1), (1, 2)] :=
  ⟨List.chain'_cons.mpr ⟨Or.inr (Or.inr ⟨rfl, rfl⟩),
      List.chain'_cons.mpr ⟨Or.inr (Or.inl ⟨rfl, rfl⟩), List.chain'_singleton _⟩⟩,
    rfl, rfl⟩

lemma isWarpPathC3_pen : IsWarpPath 2 3 [(0, 0), (0, 1), (1, 2)] :=
  ⟨List.chain'_cons.mpr ⟨Or.inr (Or.inl ⟨rfl, rfl⟩),
      List.chain'_cons.mpr ⟨Or.inr (Or.inr ⟨rfl, rfl⟩), List.chain'_singleton _⟩⟩,
    rfl, rfl⟩

lemma pathCostC3_penalty :
    pathCost (tcCell cfgC3 arrC3 seriesC3 0) [(0, 0), (0, 1), (1, 2)] = 1000000 := by
  unfold pathCost
  simp only [List.map_cons, List.map_nil, List.sum_cons, List.sum_nil]
  rw [cellC3_00, cellC3_01, cellC3_12]
  norm_num

/-- C3 counterexample: on `arrC3`/`seriesC3` with `beta = 5`, a penalty-free
alternative path exists, yet the minimizing path passes through the
`dt > beta` cell `(0, 1)`: its total cost `1e6` (the cumulative matrix
corner `D[1][2]` as well) is strictly below every penalty-free path's
cost, so the claimed avoidance fails. -/
theorem C3_min_path_uses_penalty_cell :
    (IsWarpPath 2 3 [(0, 0), (1, 1), (1, 2)] ∧
      PenaltyFree arrC3 seriesC3 0 cfgC3.beta [(0, 0), (1, 1), (1, 2)]) ∧
    (IsWarpPath 2 3 [(0, 0), (0, 1), (1, 2)] ∧
      ¬PenaltyFree arrC3 seriesC3 0 cfgC3.beta [(0, 0), (0, 1), (1, 2)] ∧
      pathCost (tcCell cfgC3 arrC3 seriesC3 0) [(0, 0), (0, 1), (1, 2)] = 1000000) ∧
    Dclassic (tcCell cfgC3 arrC3 seriesC3 0) 1 2 = 1000000 ∧
    (∀ pth, IsWarpPath 2 3 pth →
      (∀ q, IsWarpPath 2 3 q →
        pathCost (tcCell cfgC3 arrC3 seriesC3 0) pth ≤
          pathCost (tcCell cfgC3 arrC3 seriesC3 0) q) →
      ¬PenaltyFree arrC3 seriesC3 0 cfgC3.beta pth) := by
  have hbeta : cfgC3.beta = 5 := rfl
  refine ⟨⟨isWarpPathC3_free, ?_⟩, ⟨isWarpPathC3_pen, ?_, pathCostC3_penalty⟩, ?_, ?_⟩
  · intro c hc
    rcases List.mem_cons.mp hc with rfl | hc
    · rw [show ((0, 0) : ℕ × ℕ).1 = 0 from rfl, show ((0, 0) : ℕ × ℕ).2 = 0 from rfl,
        dtC3_00, hbeta]
      norm_num
    rcases List.mem_cons.mp hc with rfl | hc
    · rw [show ((1, 1) : ℕ × ℕ).1 = 1 from rfl, show ((1, 1) : ℕ × ℕ).2 = 1 from rfl,
        dtC3_11, hbeta]
      norm_num
    rcases List.mem_cons.mp hc with rfl | hc
    · rw [show ((1, 2) : ℕ × ℕ).1 = 1 from rfl, show ((1, 2) : ℕ × ℕ).2 = 2 from rfl,
        dtC3_12, hbeta]
      norm_num
    · simp at hc
  · intro h
    have h01 := h (0, 1) (by simp)
    rw [show ((0, 1) : ℕ × ℕ).1 = 0 from rfl, show ((0, 1) : ℕ × ℕ).2 = 1 from rfl,
      dtC3_01, hbeta] at h01
    norm_num at h01
  · have hz : Dclassic (tcCell cfgC3 arrC3 seriesC3 0) 0 0 = 0 := by
      rw [Dclassic_zero_zero, cellC3_00]
    have h01 := Dclassic_zero_succ (tcCell cfgC3 arrC3 seriesC3 0) 0
    rw [hz] at h01
    norm_num [cellC3_01] at h01
    have h02 := Dclassic_zero_succ (tcCell cfgC3 arrC3 seriesC3 0) 1
    rw [h01] at h02
    norm_num [cellC3_02] at h02
    have h10 := Dclassic_succ_zero (tcCell cfgC3 arrC3 seriesC3 0) 0
    rw [hz] at h10
    norm_num [cellC3_10] at h10
    have h11 := Dclassic_succ_succ (tcCell cfgC3 arrC3 seriesC3 0) 0 0
    rw [hz] at h11
    norm_num [h01, h10, cellC3_11, min_def] at h11
    have h12 := Dclassic_succ_succ (tcCell cfgC3 arrC3 seriesC3 0) 0 1
    norm_num [h01, h02, h11, cellC3_12, min_def] at h12
    exact h12
  · intro pth hpth hmin hfree
    have hle1 : pathCost (tcCell cfgC3 arrC3 seriesC3 0) pth ≤ 1000000 := by
      have h := hmin [(0, 0), (0, 1), (1, 2)] isWarpPathC3_pen
      rw [pathCostC3_penalty] at h
      exact h
    obtain ⟨hch, hhd, hlast⟩ := hpth
    obtain ⟨c, hcmem, hc2⟩ :=
      chain_snd_crossing pth hch (0, 0) (1, 2) hhd hlast 1 (by norm_num) (by norm_num)
    have hble := chain_le_getLast pth hch (1, 2) hlast c hcmem
    have hfc := hfree c hcmem
    rcases Nat.lt_or_ge c.1 1 with h0 | h1
    · have hceq : c = (0, 1) := by
        obtain ⟨c1, c2⟩ := c
        simp only at hc2 h0
        simp only [Prod.mk.injEq]
        omega
      rw [hceq] at hfc
      rw [show ((0, 1) : ℕ × ℕ).1 = 0 from rfl, show ((0, 1) : ℕ × ℕ).2 = 1 from rfl,
        dtC3_01, hbeta] at hfc
      norm_num at hfc
    · have hceq : c = (1, 1) := by
        obtain ⟨c1, c2⟩ := c
        simp only at hc2 h1 hble
        simp only [Prod.mk.injEq]
        omega
      have hge := pathCost_ge_cell (tcCell cfgC3 arrC3 seriesC3 0) pth
        (fun i p => tcCell_nonneg cfgC3 arrC3 seriesC3 0 i p) hcmem
      rw [hceq] at hge
      rw [show ((1, 1) : ℕ × ℕ).1 = 1 from rfl, show ((1, 1) : ℕ × ℕ).2 = 1 from rfl,
        cellC3_11] at hge
      linarith

/-- Witness for C3 on the concrete configuration `cfgC3`. -/
theorem C3_time_constrained_window_witness :
    disMatO cfgC3 arrC3 seriesC3 0 = some (tcCell cfgC3 arrC3 seriesC3 0) :=
  (C3_time_constrained_window cfgC3 arrC3 seriesC3 0 rfl rfl).1

/-! ### Claim C4 -/

/-- C4: per sampling unit, `DTWDist` returns the minimum of the per-pattern
alignment distances over all instances (the collection minimum: a member of
the list that bounds every member; a nearest-neighbour reduction, not an
average); the reduction is invariant under reordering of the instances;
and an instance whose (cast) band values and day-of-year sequence coincide
with the observation has alignment distance 0 under the time-constrained
window, so the returned score is 0. -/
theorem C4_pattern_reducer_min (opts : DTWOptions) (arr : Patterns)
    (series : List EEImage) (dists : List ℝ)
    (hm : mapO (perPattern (resolveConfig opts arr series) arr series)
        (List.range (resolveConfig opts arr series).patterns_no) = some dists)
    (hne : dists ≠ []) :
    (DTWDist opts arr series = some (toUint16 (collMin dists)) ∧
      collMin dists ∈ dists ∧ ∀ x ∈ dists, collMin dists ≤ x) ∧
    (∀ l l' : List ℝ, l.Perm l' → collMin l = collMin l') ∧
    (∀ k0, k0 < (resolveConfig opts arr series).patterns_no →
      (resolveConfig opts arr series).constraint_type = "time-constrained" →
      (resolveConfig opts arr series).distance_type = "euclidean" →
      0 ≤ (resolveConfig opts arr series).beta →
      1 ≤ (resolveConfig opts arr series).timeseries_len →
      (resolveConfig opts arr series).patterns_len =
        (resolveConfig opts arr series).timeseries_len →
      (∀ b, b < (resolveConfig opts arr series).band_no →
        ∀ t, t < (resolveConfig opts arr series).timeseries_len →
          patGet arr k0 b t = toInt16 ((series.getD t default).bands b)) →
      (∀ t, t < (resolveConfig opts arr series).timeseries_len →
        patGet arr k0 (-1) t = (series.getD t default).doy) →
      DTWDist opts arr series = some 0) := by
  have hmain : DTWDist opts arr series = some (toUint16 (collMin dists)) := by
    unfold DTWDist
    dsimp only
    rw [hm]
    rfl
  refine ⟨⟨hmain, collMin_mem dists hne, collMin_le dists⟩,
    fun l l' h => collMin_perm h, ?_⟩
  intro k0 hk0 hc hd hb hT hPeq hmatch hdoy
  have hP1 : 1 ≤ (resolveConfig opts arr series).patterns_len := by omega
  have hper : ∀ k, perPattern (resolveConfig opts arr series) arr series k =
      some (alignDTW (tcCell (resolveConfig opts arr series) arr series k)
        (resolveConfig opts arr series).timeseries_len
        (resolveConfig opts arr series).patterns_len) := by
    intro k
    unfold perPattern
    rw [disMatO_tc _ _ _ _ hc hd]
    rfl
  have hdists : dists = (List.range (resolveConfig opts arr series).patterns_no).map
      (fun k => alignDTW (tcCell (resolveConfig opts arr series) arr series k)
        (resolveConfig opts arr series).timeseries_len
        (resolveConfig opts arr series).patterns_len) := by
    have hs := mapO_some (perPattern (resolveConfig opts arr series) arr series)
      (fun k => alignDTW (tcCell (resolveConfig opts arr series) arr series k)
        (resolveConfig opts arr series).timeseries_len
        (resolveConfig opts arr series).patterns_len)
      (List.range (resolveConfig opts arr series).patterns_no) (fun a _ => hper a)
    rw [hm] at hs
    exact Option.some_inj.mp hs
  have hnn : ∀ x ∈ dists, 0 ≤ x := by
    rw [hdists]
    intro x hx
    obtain ⟨k, -, rfl⟩ := List.mem_map.mp hx
    rw [alignDTW_eq_classic _ hT hP1]
    exact Dclassic_nonneg _
      (fun i p => tcCell_nonneg (resolveConfig opts arr series) arr series k i p) _ _
  have hzero_mem : (0 : ℝ) ∈ dists := by
    rw [hdists]
    apply List.mem_map.mpr
    refine ⟨k0, List.mem_range.mpr hk0, ?_⟩
    rw [alignDTW_eq_classic _ hT hP1, hPeq]
    apply Dclassic_diag_zero
    · exact fun i p => tcCell_nonneg (resolveConfig opts arr series) arr series k0 i p
    · intro t ht
      have htT : t < (resolveConfig opts arr series).timeseries_len := by omega
      have hdt : dtFun arr series k0 t t = 0 := by
        unfold dtFun
        rw [hdoy t htT]
        simp
      have heu : euclidSum arr series (resolveConfig opts arr series).band_no k0 t t = 0 := by
        unfold euclidSum
        apply Finset.sum_eq_zero
        intro b hbmem
        rw [Finset.mem_range] at hbmem
        rw [hmatch b hbmem t htT]
        ring
      unfold tcCell
      rw [hdt, if_pos hb, heu, Real.sqrt_zero]
  have hcm : collMin dists = 0 := collMin_eq_zero hzero_mem hnn
  rw [hmain, hcm, toUint16_zero]

/-- Concrete data for the C4 witness: two one-band single-step patterns,
the first an exact match of the observation. -/
def arrC4 : Patterns := [[[5], [10]], [[7], [10]]]

def seriesC4 : List EEImage := [⟨fun _ => 5, 10⟩]

def optsC4 : DTWOptions :=
  { constraint_type := some "time-constrained", distance_type := some "euclidean" }

lemma alignDTW_one_one (d : ℕ → ℕ → ℝ) : alignDTW d 1 1 = d 0 0 := by
  rw [alignDTW_eq_classic d (le_refl 1) (le_refl 1)]
  exact Dclassic_zero_zero d

/-- Witness for C4: the exact-match instance drives the returned score to
0 on concrete data. -/
theorem C4_pattern_reducer_min_witness :
    DTWDist optsC4 arrC4 seriesC4 = some 0 := by
  have hcfg : resolveConfig optsC4 arrC4 seriesC4 =
      { patterns_no := 2, band_no := 1, timeseries_len := 1, patterns_len := 1,
        constraint_type := "time-constrained", weight_type := "logistic",
        distance_type := "euclidean", beta := 50, alpha := 0.1 } := rfl
  have hper : ∀ k, perPattern (resolveConfig optsC4 arrC4 seriesC4) arrC4 seriesC4 k =
      some (alignDTW (tcCell (resolveConfig optsC4 arrC4 seriesC4) arrC4 seriesC4 k) 1 1) := by
    intro k
    unfold perPattern
    rw [disMatO_tc _ _ _ _ rfl rfl]
    rfl
  have hm : mapO (perPattern (resolveConfig optsC4 arrC4 seriesC4) arrC4 seriesC4)
      (List.range (resolveConfig optsC4 arrC4 seriesC4).patterns_no) =
      some [alignDTW (tcCell (resolveConfig optsC4 arrC4 seriesC4) arrC4 seriesC4 0) 1 1,
        alignDTW (tcCell (resolveConfig optsC4 arrC4 seriesC4) arrC4 seriesC4 1) 1 1] := by
    have hs := mapO_some (perPattern (resolveConfig optsC4 arrC4 seriesC4) arrC4 seriesC4)
      (fun k => alignDTW (tcCell (resolveConfig optsC4 arrC4 seriesC4) arrC4 seriesC4 k) 1 1)
      (List.range (resolveConfig optsC4 arrC4 seriesC4).patterns_no) (fun a _ => hper a)
    rw [hs]
    rfl
  exact (C4_pattern_reducer_min optsC4 arrC4 seriesC4 _ hm (by simp)).2.2 0
    (by rw [hcfg]; norm_num) rfl rfl (by rw [hcfg]; norm_num) (by rw [hcfg]) rfl
    (by
      intro b hb t ht
      have hb0 : b = 0 := by
        have : (resolveConfig optsC4 arrC4 seriesC4).band_no = 1 := rfl
        omega
      have ht0 : t = 0 := by
        have : (resolveConfig optsC4 arrC4 seriesC4).timeseries_len = 1 := rfl
        omega
      subst hb0
      subst ht0
      rw [show patGet arrC4 ((0 : ℕ) : ℤ) ((0 : ℕ) : ℤ) ((0 : ℕ) : ℤ) = 5 from rfl,
        show (seriesC4.getD 0 default).bands 0 = 5 from rfl]
      rw [show (5 : ℝ) = ((5 : ℤ) : ℝ) by norm_num, toInt16_intCast 5 (by norm_num) (by norm_num)])
    (by
      intro t ht
      have ht0 : t = 0 := by
        have : (resolveConfig optsC4 arrC4 seriesC4).timeseries_len = 1 := rfl
        omega
      subst ht0
      rw [show patGet arrC4 ((0 : ℕ) : ℤ) (-1) ((0 : ℕ) : ℤ) = 10 from rfl,
        show (seriesC4.getD 0 default).doy = 10 from rfl])

/-! ### Claim C5 -/

/-- The hand-computed example of the specification: single band, series
`[1,1,2]`, pattern `[1,2,2]`, with day-of-year sequences only days apart so
that every cell lies inside the time-constrained window. -/
def arrC5 : Patterns := [[[1, 2, 2], [1, 2, 3]]]

def seriesC5 : List EEImage := [⟨fun _ => 1, 1⟩, ⟨fun _ => 1, 2⟩, ⟨fun _ => 2, 3⟩]

def optsC5 : DTWOptions := { constraint_type := some "time-constrained" }

def optsC5none : DTWOptions := { constraint_type := some "none" }

def cfgC5 : DTWConfig := resolveConfig optsC5 arrC5 seriesC5

lemma tcCell_eval (cfg : DTWConfig) (arr : Patterns) (series : List EEImage)
    (k i p : ℕ) (dtv ev : ℝ) (hdt : dtFun arr series k i p = dtv) (hle : dtv ≤ cfg.beta)
    (heu : euclidSum arr series cfg.band_no k i p = ev ^ 2) (hev : 0 ≤ ev) :
    tcCell cfg arr series k i p = ev := by
  unfold tcCell
  rw [hdt, if_pos hle, heu, Real.sqrt_sq hev]

lemma toInt16_one : toInt16 1 = 1 := by
  rw [show (1 : ℝ) = ((1 : ℤ) : ℝ) by norm_num, toInt16_intCast 1 (by norm_num) (by norm_num)]

lemma toInt16_two : toInt16 2 = 2 := by
  rw [show (2 : ℝ) = ((2 : ℤ) : ℝ) by norm_num, toInt16_intCast 2 (by norm_num) (by norm_num)]

lemma cellC5_00 : tcCell cfgC5 arrC5 seriesC5 0 0 0 = 0 := by
  refine tcCell_eval cfgC5 arrC5 seriesC5 0 0 0 0 0 ?_ ?_ ?_ le_rfl
  · unfold dtFun
    rw [show (seriesC5.getD 0 default).doy = 1 from rfl,
      show patGet arrC5 ((0 : ℕ) : ℤ) (-1) ((0 : ℕ) : ℤ) = 1 from rfl]
    norm_num
  · rw [show cfgC5.beta = (50 : ℝ) from rfl]
    norm_num
  · unfold euclidSum
    rw [show cfgC5.band_no = 1 from rfl, Finset.sum_range_one,
      show (seriesC5.getD 0 default).bands 0 = 1 from rfl,
      show patGet arrC5 ((0 : ℕ) : ℤ) ((0 : ℕ) : ℤ) ((0 : ℕ) : ℤ) = 1 from rfl, toInt16_one]
    norm_num

lemma cellC5_01 : tcCell cfgC5 arrC5 seriesC5 0 0 1 = 1 := by
  refine tcCell_eval cfgC5 arrC5 seriesC5 0 0 1 1 1 ?_ ?_ ?_ (by norm_num)
  · unfold dtFun
    rw [show (seriesC5.getD 0 default).doy = 1 from rfl,
      show patGet arrC5 ((0 : ℕ) : ℤ) (-1) ((1 : ℕ) : ℤ) = 2 from rfl]
    norm_num
  · rw [show cfgC5.beta = (50 : ℝ) from rfl]
    norm_num
  · unfold euclidSum
    rw [show cfgC5.band_no = 1 from rfl, Finset.sum_range_one,
      show (seriesC5.getD 0 default).bands 0 = 1 from rfl,
      show patGet arrC5 ((0 : ℕ) : ℤ) ((0 : ℕ) : ℤ) ((1 : ℕ) : ℤ) = 2 from rfl, toInt16_one]
    norm_num

lemma cellC5_02 : tcCell cfgC5 arrC5 seriesC5 0 0 2 = 1 := by
  refine tcCell_eval cfgC5 arrC5 seriesC5 0 0 2 2 1 ?_ ?_ ?_ (by norm_num)
  · unfold dtFun
    rw [show (seriesC5.getD 0 default).doy = 1 from rfl,
      show patGet arrC5 ((0 : ℕ) : ℤ) (-1) ((2 : ℕ) : ℤ) = 3 from rfl]
    norm_num
  · rw [show cfgC5.beta = (50 : ℝ) from rfl]
    norm_num
  · unfold euclidSum
    rw [show cfgC5.band_no = 1 from rfl, Finset.sum_range_one,
      show (seriesC5.getD 0 default).bands 0 = 1 from rfl,
      show patGet arrC5 ((0 : ℕ) : ℤ) ((0 : ℕ) : ℤ) ((2 : ℕ) : ℤ) = 2 from rfl, toInt16_one]
    norm_num

lemma cellC5_10 : tcCell cfgC5 arrC5 seriesC5 0 1 0 = 0 := by
  refine tcCell_eval cfgC5 arrC5 seriesC5 0 1 0 1 0 ?_ ?_ ?_ le_rfl
  · unfold dtFun
    rw [show (seriesC5.getD 1 default).doy = 2 from rfl,
      show patGet arrC5 ((0 : ℕ) : ℤ) (-1) ((0 : ℕ) : ℤ) = 1 from rfl]
    norm_num
  · rw [show cfgC5.beta = (50 : ℝ) from rfl]
    norm_num
  · unfold euclidSum
    rw [show cfgC5.band_no = 1 from rfl, Finset.sum_range_one,
      show (seriesC5.getD 1 default).bands 0 = 1 from rfl,
      show patGet arrC5 ((0 : ℕ) : ℤ) ((0 : ℕ) : ℤ) ((0 : ℕ) : ℤ) = 1 from rfl, toInt16_one]
    norm_num

lemma cellC5_11 : tcCell cfgC5 arrC5 seriesC5 0 1 1 = 1 := by
  refine tcCell_eval cfgC5 arrC5 seriesC5 0 1 1 0 1 ?_ ?_ ?_ (by norm_num)
  · unfold dtFun
    rw [show (seriesC5.getD 1 default).doy = 2 from rfl,
      show patGet arrC5 ((0 : ℕ) : ℤ) (-1) ((1 : ℕ) : ℤ) = 2 from rfl]
    norm_num
  · rw [show cfgC5.beta = (50 : ℝ) from rfl]
    norm_num
  · unfold euclidSum
    rw [show cfgC5.band_no = 1 from rfl, Finset.sum_range_one,
      show (seriesC5.getD 1 default).bands 0 = 1 from rfl,
      show patGet arrC5 ((0 : ℕ) : ℤ) ((0 : ℕ) : ℤ) ((1 : ℕ) : ℤ) = 2 from rfl, toInt16_one]
    norm_num

lemma cellC5_12 : tcCell cfgC5 arrC5 seriesC5 0 1 2 = 1 := by
  refine tcCell_eval cfgC5 arrC5 seriesC5 0 1 2 1 1 ?_ ?_ ?_ (by norm_num)
  · unfold dtFun
    rw [show (seriesC5.getD 1 default).doy = 2 from rfl,
      show patGet arrC5 ((0 : ℕ) : ℤ) (-1) ((2 : ℕ) : ℤ) = 3 from rfl]
    norm_num
  · rw [show cfgC5.beta = (50 : ℝ) from rfl]
    norm_num
  · unfold euclidSum
    rw [show cfgC5.band_no = 1 from rfl, Finset.sum_range_one,
      show (seriesC5.getD 1 default).bands 0 = 1 from rfl,
      show patGet arrC5 ((0 : ℕ) : ℤ) ((0 : ℕ) : ℤ) ((2 : ℕ) : ℤ) = 2 from rfl, toInt16_one]
    norm_num

lemma cellC5_20 : tcCell cfgC5 arrC5 seriesC5 0 2 0 = 1 := by
  refine tcCell_eval cfgC5 arrC5 seriesC5 0 2 0 2 1 ?_ ?_ ?_ (by norm_num)
  · unfold dtFun
    rw [show (seriesC5.getD 2 default).doy = 3 from rfl,
      show patGet arrC5 ((0 : ℕ) : ℤ) (-1) ((0 : ℕ) : ℤ) = 1 from rfl]
    norm_num
  · rw [show cfgC5.beta = (50 : ℝ) from rfl]
    norm_num
  · unfold euclidSum
    rw [show cfgC5.band_no = 1 from rfl, Finset.sum_range_one,
      show (seriesC5.getD 2 default).bands 0 = 2 from rfl,
      show patGet arrC5 ((0 : ℕ) : ℤ) ((0 : ℕ) : ℤ) ((0 : ℕ) : ℤ) = 1 from rfl, toInt16_two]
    norm_num

lemma cellC5_21 : tcCell cfgC5 arrC5 seriesC5 0 2 1 = 0 := by
  refine tcCell_eval cfgC5 arrC5 seriesC5 0 2 1 1 0 ?_ ?_ ?_ le_rfl
  · unfold dtFun
    rw [show (seriesC5.getD 2 default).doy = 3 from rfl,
      show patGet arrC5 ((0 : ℕ) : ℤ) (-1) ((1 : ℕ) : ℤ) = 2 from rfl]
    norm_num
  · rw [show cfgC5.beta = (50 : ℝ) from rfl]
    norm_num
  · unfold euclidSum
    rw [show cfgC5.band_no = 1 from rfl, Finset.sum_range_one,
      show (seriesC5.getD 2 default).bands 0 = 2 from rfl,
      show patGet arrC5 ((0 : ℕ) : ℤ) ((0 : ℕ) : ℤ) ((1 : ℕ) : ℤ) = 2 from rfl, toInt16_two]
    norm_num

lemma cellC5_22 : tcCell cfgC5 arrC5 seriesC5 0 2 2 = 0 := by
  refine tcCell_eval cfgC5 arrC5 seriesC5 0 2 2 0 0 ?_ ?_ ?_ le_rfl
  · unfold dtFun
    rw [show (seriesC5.getD 2 default).doy = 3 from rfl,
      show patGet arrC5 ((0 : ℕ) : ℤ) (-1) ((2 : ℕ) : ℤ) = 3 from rfl]
    norm_num
  · rw [show cfgC5.beta = (50 : ℝ) from rfl]
    norm_num
  · unfold euclidSum
    rw [show cfgC5.band_no = 1 from rfl, Finset.sum_range_one,
      show (seriesC5.getD 2 default).bands 0 = 2 from rfl,
      show patGet arrC5 ((0 : ℕ) : ℤ) ((0 : ℕ) : ℤ) ((2 : ℕ) : ℤ) = 2 from rfl, toInt16_two]
    norm_num

lemma DC5_00 : Dclassic (tcCell cfgC5 arrC5 seriesC5 0) 0 0 = 0 := by
  rw [Dclassic_zero_zero, cellC5_00]

lemma DC5_01 : Dclassic (tcCell cfgC5 arrC5 seriesC5 0) 0 1 = 1 := by
  have h := Dclassic_zero_succ (tcCell cfgC5 arrC5 seriesC5 0) 0
  rw [DC5_00] at h
  norm_num [cellC5_01] at h
  exact h

lemma DC5_02 : Dclassic (tcCell cfgC5 arrC5 seriesC5 0) 0 2 = 2 := by
  have h := Dclassic_zero_succ (tcCell cfgC5 arrC5 seriesC5 0) 1
  rw [DC5_01] at h
  norm_num [cellC5_02] at h
  exact h

lemma DC5_10 : Dclassic (tcCell cfgC5 arrC5 seriesC5 0) 1 0 = 0 := by
  have h := Dclassic_succ_zero (tcCell cfgC5 arrC5 seriesC5 0) 0
  rw [DC5_00] at h
  norm_num [cellC5_10] at h
  exact h

lemma DC5_20 : Dclassic (tcCell cfgC5 arrC5 seriesC5 0) 2 0 = 1 := by
  have h := Dclassic_succ_zero (tcCell cfgC5 arrC5 seriesC5 0) 1
  rw [DC5_10] at h
  norm_num [cellC5_20] at h
  exact h

lemma DC5_11 : Dclassic (tcCell cfgC5 arrC5 seriesC5 0) 1 1 = 1 := by
  have h := Dclassic_succ_succ (tcCell cfgC5 arrC5 seriesC5 0) 0 0
  norm_num [DC5_00, DC5_01, DC5_10, cellC5_11, min_def] at h
  exact h

lemma DC5_12 : Dclassic (tcCell cfgC5 arrC5 seriesC5 0) 1 2 = 2 := by
  have h := Dclassic_succ_succ (tcCell cfgC5 arrC5 seriesC5 0) 0 1
  norm_num [DC5_01, DC5_02, DC5_11, cellC5_12, min_def] at h
  exact h

lemma DC5_21 : Dclassic (tcCell cfgC5 arrC5 seriesC5 0) 2 1 = 0 := by
  have h := Dclassic_succ_succ (tcCell cfgC5 arrC5 seriesC5 0) 1 0
  norm_num [DC5_10, DC5_11, DC5_20, cellC5_21, min_def] at h
  exact h

lemma DC5_22 : Dclassic (tcCell cfgC5 arrC5 seriesC5 0) 2 2 = 0 := by
  have h := Dclassic_succ_succ (tcCell cfgC5 arrC5 seriesC5 0) 1 1
  norm_num [DC5_11, DC5_12, DC5_21, cellC5_22, min_def] at h
  exact h

lemma dtwC5_result : DTWDist optsC5 arrC5 seriesC5 = some 0 := by
  have hper : perPattern cfgC5 arrC5 seriesC5 0 =
      some (alignDTW (tcCell cfgC5 arrC5 seriesC5 0) 3 3) := by
    unfold perPattern
    rw [disMatO_tc _ _ _ _ rfl rfl]
    rfl
  have halign : alignDTW (tcCell cfgC5 arrC5 seriesC5 0) 3 3 = 0 := by
    rw [alignDTW_eq_classic _ (by norm_num) (by norm_num)]
    exact DC5_22
  unfold DTWDist
  dsimp only
  have hm : mapO (perPattern (resolveConfig optsC5 arrC5 seriesC5) arrC5 seriesC5)
      (List.range (resolveConfig optsC5 arrC5 seriesC5).patterns_no) = some [0] := by
    rw [show (resolveConfig optsC5 arrC5 seriesC5).patterns_no = 1 from rfl]
    rw [show List.range 1 = [0] from rfl]
    unfold mapO
    rw [show resolveConfig optsC5 arrC5 seriesC5 = cfgC5 from rfl, hper, halign]
    rfl
  rw [hm]
  show some (toUint16 (collMin [0])) = some 0
  rw [show collMin [0] = 0 from rfl, toUint16_zero]

/-- C5 corrected: the engine has no 'none' branch (see the counterexample),
but under the time-constrained branch with every gap inside the window the
cells are exactly the pass-through `sqrt(cost)` values of the claim:
`d = [[0,1,1],[0,1,1],[1,0,0]]` and `D = [[0,1,2],[0,1,2],[1,0,0]]` — and
the alignment distance `D[2][2]` is `0` (the corner of the claimed matrix
itself), not `1`, so the returned score is 0. -/
theorem C5_classic_example_values :
    ((List.range 3).map (fun i => (List.range 3).map
        (fun p => tcCell cfgC5 arrC5 seriesC5 0 i p)) =
      [[0, 1, 1], [0, 1, 1], [1, 0, 0]]) ∧
    ((List.range 3).map (fun i => (List.range 3).map
        (fun j => Dclassic (tcCell cfgC5 arrC5 seriesC5 0) i j)) =
      [[0, 1, 2], [0, 1, 2], [1, 0, 0]]) ∧
    alignDTW (tcCell cfgC5 arrC5 seriesC5 0) 3 3 = 0 ∧
    DTWDist optsC5 arrC5 seriesC5 = some 0 := by
  refine ⟨?_, ?_, ?_, dtwC5_result⟩
  · rw [show List.range 3 = [0, 1, 2] from rfl]
    simp only [List.map_cons, List.map_nil]
    rw [cellC5_00, cellC5_01, cellC5_02, cellC5_10, cellC5_11, cellC5_12,
      cellC5_20, cellC5_21, cellC5_22]
  · rw [show List.range 3 = [0, 1, 2] from rfl]
    simp only [List.map_cons, List.map_nil]
    rw [DC5_00, DC5_01, DC5_02, DC5_10, DC5_11, DC5_12, DC5_20, DC5_21, DC5_22]
  · rw [alignDTW_eq_classic _ (by norm_num) (by norm_num)]
    exact DC5_22

/-- C5 counterexample: with `constraint_type = 'none'` neither branch of
the source assigns `dis_mat`, so the call fails instead of producing the
claimed matrices and distance. -/
theorem C5_constraint_none_fails :
    disMatO (resolveConfig optsC5none arrC5 seriesC5) arrC5 seriesC5 0 = none ∧
    DTWDist optsC5none arrC5 seriesC5 = none := by
  have h1 : disMatO (resolveConfig optsC5none arrC5 seriesC5) arrC5 seriesC5 0 = none :=
    disMatO_unrecognized _ _ _ _ (by decide) (by decide)
  refine ⟨h1, ?_⟩
  have hper : perPattern (resolveConfig optsC5none arrC5 seriesC5) arrC5 seriesC5 0 = none := by
    unfold perPattern
    rw [h1]
    rfl
  unfold DTWDist
  dsimp only
  rw [mapO_none _ _ (by
      rw [show (resolveConfig optsC5none arrC5 seriesC5).patterns_no = 1 from rfl]
      decide) hper]
  rfl

/-! ### Claim C7 -/

/-- Concrete data for C7: a two-band single-step pair whose alignment
distance is the irrational `sqrt 2`. -/
def arrC7 : Patterns := [[[4], [8], [10]]]

def seriesC7 : List EEImage := [⟨fun b => if b = 0 then 3 else 7, 10⟩]

def optsC7 : DTWOptions := { constraint_type := some "time-constrained" }

lemma cellC7 : tcCell (resolveConfig optsC7 arrC7 seriesC7) arrC7 seriesC7 0 0 0 =
    Real.sqrt 2 := by
  unfold tcCell
  have hdt : dtFun arrC7 seriesC7 0 0 0 = 0 := by
    unfold dtFun
    rw [show (seriesC7.getD 0 default).doy = 10 from rfl,
      show patGet arrC7 ((0 : ℕ) : ℤ) (-1) ((0 : ℕ) : ℤ) = 10 from rfl]
    norm_num
  rw [hdt, if_pos (by
    rw [show (resolveConfig optsC7 arrC7 seriesC7).beta = (50 : ℝ) from rfl]
    norm_num)]
  have heu : euclidSum arrC7 seriesC7 (resolveConfig optsC7 arrC7 seriesC7).band_no 0 0 0 =
      2 := by
    unfold euclidSum
    rw [show (resolveConfig optsC7 arrC7 seriesC7).band_no = 2 from rfl,
      Finset.sum_range_succ, Finset.sum_range_one,
      show (seriesC7.getD 0 default).bands 0 = 3 from rfl,
      show (seriesC7.getD 0 default).bands 1 = 7 from rfl,
      show patGet arrC7 ((0 : ℕ) : ℤ) ((0 : ℕ) : ℤ) ((0 : ℕ) : ℤ) = 4 from rfl,
      show patGet arrC7 ((0 : ℕ) : ℤ) ((1 : ℕ) : ℤ) ((0 : ℕ) : ℤ) = 8 from rfl,
      show (3 : ℝ) = ((3 : ℤ) : ℝ) by norm_num,
      toInt16_intCast 3 (by norm_num) (by norm_num),
      show (7 : ℝ) = ((7 : ℤ) : ℝ) by norm_num,
      toInt16_intCast 7 (by norm_num) (by norm_num)]
    norm_num
  rw [heu]

lemma mapO_C7 : mapO (perPattern (resolveConfig optsC7 arrC7 seriesC7) arrC7 seriesC7)
    (List.range (resolveConfig optsC7 arrC7 seriesC7).patterns_no) =
    some [Real.sqrt 2] := by
  have hper : perPattern (resolveConfig optsC7 arrC7 seriesC7) arrC7 seriesC7 0 =
      some (Real.sqrt 2) := by
    unfold perPattern
    rw [disMatO_tc _ _ _ _ rfl rfl, Option.map_some']
    rw [show (resolveConfig optsC7 arrC7 seriesC7).timeseries_len = 1 from rfl,
      show (resolveConfig optsC7 arrC7 seriesC7).patterns_len = 1 from rfl,
      alignDTW_one_one, cellC7]
  rw [show (resolveConfig optsC7 arrC7 seriesC7).patterns_no = 1 from rfl,
    show List.range 1 = [0] from rfl]
  unfold mapO
  rw [hper]
  rfl

lemma sqrt_two_bounds : 1 ≤ Real.sqrt 2 ∧ Real.sqrt 2 < 2 := by
  constructor
  · exact Real.one_le_sqrt.mpr (by norm_num)
  · exact (Real.sqrt_lt' (by norm_num)).mpr (by norm_num)

lemma toUint16_sqrt_two : toUint16 (Real.sqrt 2) = 1 := by
  unfold toUint16 truncR
  rw [if_pos (Real.sqrt_nonneg 2)]
  have hfl : ⌊Real.sqrt 2⌋ = 1 := by
    rw [Int.floor_eq_iff]
    constructor
    · exact_mod_cast sqrt_two_bounds.1
    · have h := sqrt_two_bounds.2
      norm_num
      linarith
  rw [hfl]
  rfl

/-- C7 counterexample: on `arrC7`/`seriesC7` the exact minimum alignment
distance is `sqrt 2`, but the score `DTWDist` emits is the Uint16 cast
`1 ≠ sqrt 2`: the emitted score is not the exact float minimum. -/
theorem C7_score_not_exact_min :
    mapO (perPattern (resolveConfig optsC7 arrC7 seriesC7) arrC7 seriesC7)
        (List.range (resolveConfig optsC7 arrC7 seriesC7).patterns_no) =
      some [Real.sqrt 2] ∧
    DTWDist optsC7 arrC7 seriesC7 = some 1 ∧
    Real.sqrt 2 ≠ 1 := by
  refine ⟨mapO_C7, ?_, ?_⟩
  · unfold DTWDist
    dsimp only
    rw [mapO_C7]
    show some (toUint16 (collMin [Real.sqrt 2])) = some 1
    rw [show collMin [Real.sqrt 2] = Real.sqrt 2 from rfl, toUint16_sqrt_two]
  · intro h
    have h2 := congrArg (fun x : ℝ => x ^ 2) h
    simp only at h2
    rw [Real.sq_sqrt (by norm_num)] at h2
    norm_num at h2

/-- C7 amended: the score `DTWDist` emits is the minimum alignment distance
cast `toUint16` — clamped to `[0, 65535]` and truncated to an integer — so
it agrees with the exact minimum only when that minimum is an integer in
range. -/
theorem C7_score_is_uint16_cast (opts : DTWOptions) (arr : Patterns)
    (series : List EEImage) (dists : List ℝ)
    (hm : mapO (perPattern (resolveConfig opts arr series) arr series)
        (List.range (resolveConfig opts arr series).patterns_no) = some dists) :
    DTWDist opts arr series = some (toUint16 (collMin dists)) ∧
    (∀ z : ℤ, 0 ≤ z → z ≤ 65535 → collMin dists = (z : ℝ) →
      DTWDist opts arr series = some z.toNat) ∧
    (∀ r, DTWDist opts arr series = some r → r ≤ 65535) := by
  have hmain : DTWDist opts arr series = some (toUint16 (collMin dists)) := by
    unfold DTWDist
    dsimp only
    rw [hm]
    rfl
  refine ⟨hmain, ?_, ?_⟩
  · intro z h1 h2 hc
    rw [hmain, hc, toUint16_intCast z h1 h2]
  · intro r hr
    rw [hmain] at hr
    rw [(Option.some_inj.mp hr).symm]
    unfold toUint16
    omega

/-- Witness for C7 on the concrete `sqrt 2` instance. -/
theorem C7_score_is_uint16_cast_witness :
    DTWDist optsC7 arrC7 seriesC7 = some (toUint16 (collMin [Real.sqrt 2])) :=
  (C7_score_is_uint16_cast optsC7 arrC7 seriesC7 [Real.sqrt 2] mapO_C7).1

/-! ### Claim C8 -/

def optsC8 : DTWOptions :=
  { timeseries_len := some 0, constraint_type := some "time-constrained" }

/-- C8 counterexample: a call with the configuration value
`timeseries_len = 0` (`< 1`) does not fail at all: the `||` defaulting
silently replaces it by the collection size and the call returns a normal
score. -/
theorem C8_zero_length_option_no_error :
    (resolveConfig optsC8 arrC5 seriesC5).timeseries_len = 3 ∧
    DTWDist optsC8 arrC5 seriesC5 = some 0 := by
  have hcfg : resolveConfig optsC8 arrC5 seriesC5 = resolveConfig optsC5 arrC5 seriesC5 := rfl
  refine ⟨rfl, ?_⟩
  unfold DTWDist
  rw [hcfg]
  have h := dtwC5_result
  unfold DTWDist at h
  exact h

/-- C8 amended: `DTWDist` performs no eager validation: zero length options
are silently replaced by inferred shapes, and an unrecognized
`constraint_type` makes the computation fail only where `dis_mat` is
consumed (no result), not through an upfront configuration check. -/
theorem C8_no_eager_validation (opts : DTWOptions) (arr : Patterns)
    (series : List EEImage) :
    (opts.timeseries_len = some 0 →
      (resolveConfig opts arr series).timeseries_len = series.length) ∧
    (opts.patterns_len = some 0 →
      (resolveConfig opts arr series).patterns_len =
        ((arr.getD 0 []).getD 0 []).length) ∧
    ((resolveConfig opts arr series).constraint_type ≠ "time-constrained" →
      (resolveConfig opts arr series).constraint_type ≠ "time-weighted" →
      1 ≤ (resolveConfig opts arr series).patterns_no →
      DTWDist opts arr series = none) := by
  refine ⟨?_, ?_, ?_⟩
  · intro h
    show orD opts.timeseries_len 0 series.length = series.length
    rw [h]
    simp [orD]
  · intro h
    show orD opts.patterns_len 0 ((arr.getD 0 []).getD 0 []).length = _
    rw [h]
    simp [orD]
  · intro h1 h2 hp
    have hdm := disMatO_unrecognized (resolveConfig opts arr series) arr series 0 h1 h2
    have hper : perPattern (resolveConfig opts arr series) arr series 0 = none := by
      unfold perPattern
      rw [hdm]
      rfl
    unfold DTWDist
    dsimp only
    rw [mapO_none _ _ (List.mem_range.mpr hp) hper]
    rfl

def optsW8 : DTWOptions := { timeseries_len := some 0, constraint_type := some "bogus" }

/-- Witness for C8: a zero `timeseries_len` option is replaced by the
inferred collection size, and the unrecognized `constraint_type`
`'bogus'` yields no result. -/
theorem C8_no_eager_validation_witness :
    (resolveConfig optsW8 arrC5 seriesC5).timeseries_len = seriesC5.length ∧
    DTWDist optsW8 arrC5 seriesC5 = none :=
  ⟨(C8_no_eager_validation optsW8 arrC5 seriesC5).1 rfl,
    (C8_no_eager_validation optsW8 arrC5 seriesC5).2.2 (by decide) (by decide)
      (by rw [show (resolveConfig optsW8 arrC5 seriesC5).patterns_no = 1 from rfl])⟩

end
